import Mathlib

/-!
Verification of the session persistence layer of the MANUS-CLONE repository
(`ai_agent_app/modules/session_manager.py`, with the clearing dispatcher from
`ai_agent_app/modules/application_controller.py`).

The development shallowly embeds the store:

* `Json` is the JSON data model of the opaque payloads; `encodeJson` and
  `decodeJson` model `json.dumps` / `json.loads` on that domain (text with
  the default separators `", "` and `": "`; floats are outside the model).
* `Store` is the state of the SQLite database: one list per table in rowid
  order, together with the `sqlite_sequence` counter of every AUTOINCREMENT
  table (a `DELETE FROM t` does not reset that counter).
* Each Python method becomes a total Lean function parameterised by an
  `Env` carrying the wall-clock string `time.strftime(...)` and a fault
  flag standing for an I/O exception raised by the backing engine during
  the call; the `try/except` of every method is the `Env.fault` branch.
-/

mutual

/-- JSON values: the payload domain of the store (`null`, booleans, integer
numbers, strings, arrays, objects with ordered fields). -/
inductive Json where
  | null : Json
  | bool (b : Bool) : Json
  | num (n : Int) : Json
  | str (s : String) : Json
  | arr (elems : JsonList) : Json
  | obj (fields : JsonFields) : Json

/-- A list of JSON values (elements of an array, in order). -/
inductive JsonList where
  | nil : JsonList
  | cons (hd : Json) (tl : JsonList) : JsonList

/-- Ordered key/value fields of a JSON object (`json` preserves insertion
order of `dict` keys). -/
inductive JsonFields where
  | nil : JsonFields
  | cons (key : String) (value : Json) (tl : JsonFields) : JsonFields

end

/-- Escaping of one character inside a JSON string literal, as `json.dumps`
produces it for the characters the model covers (`ensure_ascii` escaping of
further control characters only changes the text, not the value). -/
def escapeChar (c : Char) : List Char :=
  if c = '"' then ['\\', '"']
  else if c = '\\' then ['\\', '\\']
  else if c = '\n' then ['\\', 'n']
  else if c = '\t' then ['\\', 't']
  else if c = '\r' then ['\\', 'r']
  else [c]

/-- Escape every character of a string body. -/
def escapeList : List Char → List Char
  | [] => []
  | c :: cs => escapeChar c ++ escapeList cs

/-- A quoted JSON string literal. -/
def encodeStr (s : String) : List Char :=
  '"' :: (escapeList s.data ++ ['"'])

/-- The character of a decimal digit. -/
def digitChar (d : Nat) : Char := Char.ofNat (48 + d)

/-- Little-endian decimal digits, with explicit fuel so that the kernel can
evaluate it; agrees with `Nat.digits 10` once the fuel dominates. -/
def digitsAux : Nat → Nat → List Nat
  | 0, _ => []
  | f + 1, m => if m = 0 then [] else m % 10 :: digitsAux f (m / 10)

/-- Big-endian decimal digits of a natural number (`[0]` for zero). -/
def digitsBE (m : Nat) : List Nat :=
  if m = 0 then [0] else (digitsAux m m).reverse

/-- Decimal text of a natural number. -/
def natChars (m : Nat) : List Char := (digitsBE m).map digitChar

/-- Decimal text of an integer, as `json.dumps` prints `int`. -/
def encodeInt (n : Int) : List Char :=
  if n < 0 then '-' :: natChars n.natAbs else natChars n.toNat

mutual

/-- Text of a JSON value, with the default `json.dumps` separators. -/
def encodeVal : Json → List Char
  | .null => "null".data
  | .bool true => "true".data
  | .bool false => "false".data
  | .num n => encodeInt n
  | .str s => encodeStr s
  | .arr JsonList.nil => ['[', ']']
  | .arr (JsonList.cons x xs) => '[' :: (encodeVal x ++ encodeItemsRest xs)
  | .obj JsonFields.nil => ['{', '}']
  | .obj (JsonFields.cons k v fs) =>
      '{' :: (encodeStr k ++ ':' :: ' ' :: (encodeVal v ++ encodeFieldsRest fs))

/-- Text of the remaining array elements, each preceded by `", "`, closed
by `]`. -/
def encodeItemsRest : JsonList → List Char
  | .nil => [']']
  | .cons x xs => ',' :: ' ' :: (encodeVal x ++ encodeItemsRest xs)

/-- Text of the remaining object fields, each preceded by `", "`, closed
by `}`. -/
def encodeFieldsRest : JsonFields → List Char
  | .nil => ['}']
  | .cons k v fs =>
      ',' :: ' ' :: (encodeStr k ++ ':' :: ' ' :: (encodeVal v ++ encodeFieldsRest fs))

end

/-- `json.dumps` on the modelled domain. -/
def encodeJson (v : Json) : String := ⟨encodeVal v⟩

/-- JSON whitespace test. -/
def isWs (c : Char) : Bool := c == ' ' || c == '\n' || c == '\t' || c == '\r'

/-- Drop leading whitespace. -/
def skipWs : List Char → List Char
  | [] => []
  | c :: cs => cond (isWs c) (skipWs cs) (c :: cs)

/-- Does the input start with this character? -/
def headIs (c : Char) : List Char → Bool
  | [] => false
  | c2 :: _ => c2 == c

/-- Consume an exact run of characters, returning the rest. -/
def expectChars : List Char → List Char → Option (List Char)
  | [], cs => some cs
  | _ :: _, [] => none
  | p :: ps, c :: cs => cond (c == p) (expectChars ps cs) none

/-- Unescape the character following a backslash in a string literal. -/
def unescapeChar (d : Char) : Option Char :=
  if d = '"' then some '"'
  else if d = '\\' then some '\\'
  else if d = 'n' then some '\n'
  else if d = 't' then some '\t'
  else if d = 'r' then some '\r'
  else none

/-- Parse the body of a string literal after the opening quote, with the
characters read so far accumulated in order. -/
def parseStringAux : List Char → List Char → Option (String × List Char)
  | _, [] => none
  | acc, c :: r =>
    if c = '"' then some (⟨acc⟩, r)
    else if c = '\\' then
      match r with
      | [] => none
      | d :: r2 =>
        match unescapeChar d with
        | some e => parseStringAux (acc ++ [e]) r2
        | none => none
    else parseStringAux (acc ++ [c]) r

/-- Read a maximal run of decimal digits as digit values. -/
def takeDigits : List Char → List Nat × List Char
  | [] => ([], [])
  | c :: r =>
    cond c.isDigit
      (let p := takeDigits r
       ((c.toNat - 48) :: p.1, p.2))
      ([], c :: r)

mutual

/-- Fueled recursive-descent parser for one JSON value, positioned exactly
at the value's first character. -/
def parseVal : Nat → List Char → Option (Json × List Char)
  | 0, _ => none
  | f + 1, cs =>
    match cs with
    | [] => none
    | c :: r =>
      cond (c == 'n')
        (match expectChars ['u', 'l', 'l'] r with
         | some r2 => some (Json.null, r2)
         | none => none) <|
      cond (c == 't')
        (match expectChars ['r', 'u', 'e'] r with
         | some r2 => some (Json.bool true, r2)
         | none => none) <|
      cond (c == 'f')
        (match expectChars ['a', 'l', 's', 'e'] r with
         | some r2 => some (Json.bool false, r2)
         | none => none) <|
      cond (c == '"')
        (match parseStringAux [] r with
         | some (s, r2) => some (Json.str s, r2)
         | none => none) <|
      cond (c == '[')
        (cond (headIs ']' r) (some (Json.arr JsonList.nil, r.tail))
          (match parseVal f r with
           | some (v, r2) =>
             match parseItemsRest f r2 with
             | some (vs, r3) => some (Json.arr (JsonList.cons v vs), r3)
             | none => none
           | none => none)) <|
      cond (c == '{')
        (cond (headIs '}' r) (some (Json.obj JsonFields.nil, r.tail))
          (cond (headIs '"' r)
            (match parseStringAux [] r.tail with
             | some (k, r2) =>
               cond (headIs ':' r2)
                 (match parseVal f (skipWs r2.tail) with
                  | some (v, r3) =>
                    match parseFieldsRest f r3 with
                    | some (fs, r4) => some (Json.obj (JsonFields.cons k v fs), r4)
                    | none => none
                  | none => none)
                 none
             | none => none)
            none)) <|
      cond (c == '-')
        (cond (takeDigits r).1.isEmpty none
          (some (Json.num (-(Nat.ofDigits 10 (takeDigits r).1.reverse : Nat) : Int),
            (takeDigits r).2))) <|
      cond c.isDigit
        (some (Json.num (Nat.ofDigits 10 (takeDigits (c :: r)).1.reverse : Nat),
          (takeDigits (c :: r)).2))
        none

/-- Parse the array elements after the first one: either `]`, or `,`
followed by a value and the remaining elements. -/
def parseItemsRest : Nat → List Char → Option (JsonList × List Char)
  | 0, _ => none
  | f + 1, cs =>
    cond (headIs ']' cs) (some (JsonList.nil, cs.tail)) <|
    cond (headIs ',' cs)
      (match parseVal f (skipWs cs.tail) with
       | some (v, r2) =>
         match parseItemsRest f r2 with
         | some (vs, r3) => some (JsonList.cons v vs, r3)
         | none => none
       | none => none)
      none

/-- Parse the object fields after the first one: either `}`, or `,`
followed by a quoted key, `:`, a value and the remaining fields. -/
def parseFieldsRest : Nat → List Char → Option (JsonFields × List Char)
  | 0, _ => none
  | f + 1, cs =>
    cond (headIs '}' cs) (some (JsonFields.nil, cs.tail)) <|
    cond (headIs ',' cs)
      (cond (headIs '"' (skipWs cs.tail))
         (match parseStringAux [] (skipWs cs.tail).tail with
          | some (k, r2) =>
            cond (headIs ':' r2)
              (match parseVal f (skipWs r2.tail) with
               | some (v, r3) =>
                 match parseFieldsRest f r3 with
                 | some (fs, r4) => some (JsonFields.cons k v fs, r4)
                 | none => none
               | none => none)
              none
          | none => none)
         none)
      none

end

mutual

/-- Fuel sufficient to parse a value. -/
def sizeV : Json → Nat
  | .null => 1
  | .bool _ => 1
  | .num _ => 1
  | .str _ => 1
  | .arr JsonList.nil => 1
  | .arr (JsonList.cons x xs) => 1 + sizeV x + sizeItems xs
  | .obj JsonFields.nil => 1
  | .obj (JsonFields.cons _ v fs) => 1 + sizeV v + sizeFields fs

/-- Fuel sufficient to parse remaining array elements. -/
def sizeItems : JsonList → Nat
  | .nil => 1
  | .cons x xs => 1 + sizeV x + sizeItems xs

/-- Fuel sufficient to parse remaining object fields. -/
def sizeFields : JsonFields → Nat
  | .nil => 1
  | .cons _ v fs => 1 + sizeV v + sizeFields fs

end

/-- `json.loads` on the modelled domain: parse one value and insist the
remainder is whitespace. -/
def decodeJson (s : String) : Option Json :=
  match parseVal (2 * s.data.length + 1) (skipWs s.data) with
  | some (v, rest) => if skipWs rest = [] then some v else none
  | none => none

/-- Is the head of the input not a decimal digit (true for empty input)? -/
def noDigitHead : List Char → Bool
  | [] => true
  | c :: _ => !c.isDigit

theorem string_mk_data (s : String) : (⟨s.data⟩ : String) = s := rfl

theorem parseStringAux_one (c : Char) (acc tail : List Char) :
    parseStringAux acc (escapeChar c ++ tail) = parseStringAux (acc ++ [c]) tail := by
  by_cases h1 : c = '"'
  · subst h1; rw [escapeChar, if_pos rfl]
    rw [show parseStringAux acc (['\\', '"'] ++ tail)
        = parseStringAux (acc ++ ['"']) tail by
      rw [parseStringAux.eq_def]; simp [unescapeChar]]
  by_cases h2 : c = '\\'
  · subst h2; rw [escapeChar, if_neg (by decide), if_pos rfl]
    rw [show parseStringAux acc (['\\', '\\'] ++ tail)
        = parseStringAux (acc ++ ['\\']) tail by
      rw [parseStringAux.eq_def]; simp [unescapeChar]]
  by_cases h3 : c = '\n'
  · subst h3
    rw [escapeChar, if_neg (by decide), if_neg (by decide), if_pos rfl]
    rw [show parseStringAux acc (['\\', 'n'] ++ tail)
        = parseStringAux (acc ++ ['\n']) tail by
      rw [parseStringAux.eq_def]; simp [unescapeChar]]
  by_cases h4 : c = '\t'
  · subst h4
    rw [escapeChar, if_neg (by decide), if_neg (by decide), if_neg (by decide), if_pos rfl]
    rw [show parseStringAux acc (['\\', 't'] ++ tail)
        = parseStringAux (acc ++ ['\t']) tail by
      rw [parseStringAux.eq_def]; simp [unescapeChar]]
  by_cases h5 : c = '\r'
  · subst h5
    rw [escapeChar, if_neg (by decide), if_neg (by decide), if_neg (by decide),
      if_neg (by decide), if_pos rfl]
    rw [show parseStringAux acc (['\\', 'r'] ++ tail)
        = parseStringAux (acc ++ ['\r']) tail by
      rw [parseStringAux.eq_def]; simp [unescapeChar]]
  rw [escapeChar, if_neg h1, if_neg h2, if_neg h3, if_neg h4, if_neg h5]
  rw [show ([c] ++ tail) = c :: tail from rfl]
  rw [parseStringAux.eq_def]
  simp [h1, h2]

theorem parseStringAux_escape (cs : List Char) : ∀ (acc rest : List Char),
    parseStringAux acc (escapeList cs ++ '"' :: rest) = some (⟨acc ++ cs⟩, rest) := by
  induction cs with
  | nil =>
    intro acc rest
    rw [escapeList, List.nil_append, parseStringAux.eq_def]
    simp
  | cons c cs ih =>
    intro acc rest
    rw [show escapeList (c :: cs) ++ '"' :: rest
        = escapeChar c ++ (escapeList cs ++ '"' :: rest) by
      simp [escapeList]]
    rw [parseStringAux_one, ih]
    simp

theorem digitsAux_eq (f : Nat) : ∀ m, m ≤ f → digitsAux f m = Nat.digits 10 m := by
  induction f with
  | zero =>
    intro m hm
    have : m = 0 := Nat.le_zero.mp hm
    subst this
    simp [digitsAux]
  | succ f ih =>
    intro m hm
    by_cases h0 : m = 0
    · subst h0; simp [digitsAux]
    · have hdiv : m / 10 ≤ f := by
        have h1 : m / 10 < m := Nat.div_lt_self (Nat.pos_of_ne_zero h0) (by norm_num)
        omega
      rw [digitsAux, if_neg h0, ih _ hdiv,
        ← Nat.digits_def' (by norm_num : (1 : Nat) < 10) (Nat.pos_of_ne_zero h0)]

theorem digitsBE_eq (m : Nat) (h : m ≠ 0) : digitsBE m = (Nat.digits 10 m).reverse := by
  rw [digitsBE, if_neg h, digitsAux_eq m m le_rfl]

theorem digitsBE_ne_nil (m : Nat) : digitsBE m ≠ [] := by
  by_cases h : m = 0
  · subst h; simp [digitsBE]
  · rw [digitsBE_eq m h]
    simpa using Nat.digits_ne_nil_iff_ne_zero.mpr h

theorem digitsBE_lt (m : Nat) : ∀ d ∈ digitsBE m, d < 10 := by
  intro d hd
  by_cases h : m = 0
  · subst h; simp [digitsBE] at hd; omega
  · rw [digitsBE_eq m h, List.mem_reverse] at hd
    exact Nat.digits_lt_base (by norm_num) hd

theorem ofDigits_digitsBE (m : Nat) : Nat.ofDigits 10 (digitsBE m).reverse = m := by
  by_cases h : m = 0
  · subst h; simp [digitsBE, Nat.ofDigits]
  · rw [digitsBE_eq m h, List.reverse_reverse, Nat.ofDigits_digits]

theorem digitChar_facts : ∀ d : Nat, d < 10 →
    (digitChar d == 'n') = false ∧ (digitChar d == 't') = false ∧
    (digitChar d == 'f') = false ∧ (digitChar d == '"') = false ∧
    (digitChar d == '[') = false ∧ (digitChar d == '{') = false ∧
    (digitChar d == '-') = false ∧ (digitChar d == ']') = false ∧
    (digitChar d).isDigit = true ∧ isWs (digitChar d) = false ∧
    (digitChar d).toNat - 48 = d := by decide

theorem takeDigits_map (ds : List Nat) (hds : ∀ d ∈ ds, d < 10) :
    ∀ rest, noDigitHead rest = true →
      takeDigits (ds.map digitChar ++ rest) = (ds, rest) := by
  induction ds with
  | nil =>
    intro rest hrest
    cases rest with
    | nil => rfl
    | cons c r =>
      simp only [noDigitHead, Bool.not_eq_true'] at hrest
      simp [takeDigits, hrest]
  | cons d ds ih =>
    intro rest hrest
    have hfacts := digitChar_facts d (hds d (by simp))
    have hrec := ih (fun x hx => hds x (by simp [hx])) rest hrest
    simp only [List.map_cons, List.cons_append, takeDigits, hfacts.2.2.2.2.2.2.2.2.1,
      cond_true, List.append_eq]
    rw [hrec]
    simp [hfacts.2.2.2.2.2.2.2.2.2.2]

theorem takeDigits_natChars (m : Nat) (rest : List Char) (hrest : noDigitHead rest = true) :
    takeDigits (natChars m ++ rest) = (digitsBE m, rest) :=
  takeDigits_map (digitsBE m) (digitsBE_lt m) rest hrest

theorem natChars_shape (m : Nat) :
    ∃ d ds, digitsBE m = d :: ds ∧ d < 10 ∧
      natChars m = digitChar d :: ds.map digitChar := by
  obtain ⟨d, ds, hds⟩ := List.exists_cons_of_ne_nil (digitsBE_ne_nil m)
  exact ⟨d, ds, hds, digitsBE_lt m d (by simp [hds]), by simp [natChars, hds]⟩

theorem skipWs_space (cs : List Char) : skipWs (' ' :: cs) = skipWs cs := rfl

theorem natChars_head_facts (m : Nat) :
    ∃ c r, natChars m = c :: r ∧ isWs c = false ∧ (c == ']') = false := by
  obtain ⟨d, ds, _, hlt, hnat⟩ := natChars_shape m
  have hf := digitChar_facts d hlt
  exact ⟨digitChar d, _, hnat, hf.2.2.2.2.2.2.2.2.2.1, hf.2.2.2.2.2.2.2.1⟩

theorem encodeVal_head (v : Json) :
    ∃ c r, encodeVal v = c :: r ∧ isWs c = false ∧ (c == ']') = false := by
  cases v with
  | null => exact ⟨'n', _, rfl, rfl, rfl⟩
  | bool b =>
    cases b with
    | false => exact ⟨'f', _, rfl, rfl, rfl⟩
    | true => exact ⟨'t', _, rfl, rfl, rfl⟩
  | num n =>
    by_cases hn : n < 0
    · refine ⟨'-', natChars n.natAbs, ?_, rfl, rfl⟩
      rw [show encodeVal (Json.num n) = encodeInt n from rfl, encodeInt, if_pos hn]
    · obtain ⟨c, r, hc, h1, h2⟩ := natChars_head_facts n.toNat
      refine ⟨c, r, ?_, h1, h2⟩
      rw [show encodeVal (Json.num n) = encodeInt n from rfl, encodeInt, if_neg hn, hc]
  | str s => exact ⟨'"', _, rfl, rfl, rfl⟩
  | arr l =>
    cases l with
    | nil => exact ⟨'[', _, rfl, rfl, rfl⟩
    | cons x xs => exact ⟨'[', _, rfl, rfl, rfl⟩
  | obj l =>
    cases l with
    | nil => exact ⟨'{', _, rfl, rfl, rfl⟩
    | cons k v fs => exact ⟨'{', _, rfl, rfl, rfl⟩

theorem skipWs_encodeVal (v : Json) (t : List Char) :
    skipWs (encodeVal v ++ t) = encodeVal v ++ t := by
  obtain ⟨c, r, hc, hws, _⟩ := encodeVal_head v
  rw [hc, List.cons_append, skipWs, hws, Bool.cond_false]

theorem headIs_encodeVal (v : Json) (t : List Char) :
    headIs ']' (encodeVal v ++ t) = false := by
  obtain ⟨c, r, hc, _, hne⟩ := encodeVal_head v
  rw [hc, List.cons_append, headIs, hne]

theorem noDigitHead_itemsRest (xs : JsonList) (t : List Char) :
    noDigitHead (encodeItemsRest xs ++ t) = true := by
  cases xs <;> rfl

theorem noDigitHead_fieldsRest (fs : JsonFields) (t : List Char) :
    noDigitHead (encodeFieldsRest fs ++ t) = true := by
  cases fs <;> rfl

theorem parseVal_natChars (f m : Nat) (rest : List Char)
    (hrest : noDigitHead rest = true) :
    parseVal (f + 1) (natChars m ++ rest) = some (Json.num (m : Int), rest) := by
  obtain ⟨d, ds, _, hlt, hnat⟩ := natChars_shape m
  have hf := digitChar_facts d hlt
  have htd : takeDigits (natChars m ++ rest) = (digitsBE m, rest) :=
    takeDigits_natChars m rest hrest
  rw [hnat] at htd ⊢
  rw [List.cons_append] at htd ⊢
  simp only [parseVal, hf.1, hf.2.1, hf.2.2.1, hf.2.2.2.1, hf.2.2.2.2.1,
    hf.2.2.2.2.2.1, hf.2.2.2.2.2.2.1, hf.2.2.2.2.2.2.2.2.1,
    Bool.cond_false, Bool.cond_true]
  rw [htd, ofDigits_digitsBE]

theorem parseVal_negNatChars (f m : Nat) (rest : List Char)
    (hrest : noDigitHead rest = true) :
    parseVal (f + 1) ('-' :: (natChars m ++ rest))
      = some (Json.num (-(m : Int)), rest) := by
  have htd : takeDigits (natChars m ++ rest) = (digitsBE m, rest) :=
    takeDigits_natChars m rest hrest
  have e : parseVal (f + 1) ('-' :: (natChars m ++ rest)) =
      cond (takeDigits (natChars m ++ rest)).1.isEmpty none
        (some (Json.num
            (-(Nat.ofDigits 10 (takeDigits (natChars m ++ rest)).1.reverse : Nat) : Int),
          (takeDigits (natChars m ++ rest)).2)) := rfl
  rw [e, htd]
  obtain ⟨d, ds, hds⟩ := List.exists_cons_of_ne_nil (digitsBE_ne_nil m)
  rw [show (digitsBE m, rest).1 = digitsBE m from rfl,
    show (digitsBE m, rest).2 = rest from rfl, hds,
    show (d :: ds).isEmpty = false from rfl, Bool.cond_false, ← hds,
    ofDigits_digitsBE]

theorem parseVal_quote (f : Nat) (body rest : List Char) (s : String)
    (h : parseStringAux [] body = some (s, rest)) :
    parseVal (f + 1) ('"' :: body) = some (Json.str s, rest) := by
  have e : parseVal (f + 1) ('"' :: body) =
      (match parseStringAux [] body with
       | some (s2, r2) => some (Json.str s2, r2)
       | none => none) := rfl
  rw [e, h]

theorem parseVal_arrCons (f : Nat) (r r2 rest : List Char) (v : Json) (vs : JsonList)
    (hne : headIs ']' r = false)
    (h1 : parseVal f r = some (v, r2))
    (h2 : parseItemsRest f r2 = some (vs, rest)) :
    parseVal (f + 1) ('[' :: r) = some (Json.arr (JsonList.cons v vs), rest) := by
  have e : parseVal (f + 1) ('[' :: r) =
      cond (headIs ']' r) (some (Json.arr JsonList.nil, r.tail))
        (match parseVal f r with
         | some (v2, q2) =>
           match parseItemsRest f q2 with
           | some (vs2, q3) => some (Json.arr (JsonList.cons v2 vs2), q3)
           | none => none
         | none => none) := rfl
  rw [e, hne, Bool.cond_false, h1]
  show (match parseItemsRest f r2 with
    | some (vs2, q3) => some (Json.arr (JsonList.cons v vs2), q3)
    | none => none) = _
  rw [h2]

theorem parseVal_objCons (f : Nat) (kbody r3 r4 rest : List Char) (k : String)
    (v : Json) (fs : JsonFields)
    (hk : parseStringAux [] kbody = some (k, ':' :: r3))
    (hv : parseVal f (skipWs r3) = some (v, r4))
    (hf : parseFieldsRest f r4 = some (fs, rest)) :
    parseVal (f + 1) ('{' :: '"' :: kbody)
      = some (Json.obj (JsonFields.cons k v fs), rest) := by
  have e : parseVal (f + 1) ('{' :: '"' :: kbody) =
      (match parseStringAux [] kbody with
       | some (k2, q2) =>
         cond (headIs ':' q2)
           (match parseVal f (skipWs q2.tail) with
            | some (v2, q3) =>
              match parseFieldsRest f q3 with
              | some (fs2, q4) => some (Json.obj (JsonFields.cons k2 v2 fs2), q4)
              | none => none
            | none => none)
           none
       | none => none) := rfl
  rw [e, hk]
  show cond (headIs ':' (':' :: r3))
      (match parseVal f (skipWs (':' :: r3).tail) with
       | some (v2, q3) =>
         match parseFieldsRest f q3 with
         | some (fs2, q4) => some (Json.obj (JsonFields.cons k v2 fs2), q4)
         | none => none
       | none => none)
      none = _
  rw [show headIs ':' (':' :: r3) = true from rfl, Bool.cond_true,
    show (':' :: r3).tail = r3 from rfl, hv]
  show (match parseFieldsRest f r4 with
    | some (fs2, q4) => some (Json.obj (JsonFields.cons k v fs2), q4)
    | none => none) = _
  rw [hf]

theorem parseItemsRest_comma (f : Nat) (r r2 rest : List Char) (v : Json) (vs : JsonList)
    (h1 : parseVal f (skipWs r) = some (v, r2))
    (h2 : parseItemsRest f r2 = some (vs, rest)) :
    parseItemsRest (f + 1) (',' :: r) = some (JsonList.cons v vs, rest) := by
  have e : parseItemsRest (f + 1) (',' :: r) =
      (match parseVal f (skipWs r) with
       | some (v2, q2) =>
         match parseItemsRest f q2 with
         | some (vs2, q3) => some (JsonList.cons v2 vs2, q3)
         | none => none
       | none => none) := rfl
  rw [e, h1]
  show (match parseItemsRest f r2 with
    | some (vs2, q3) => some (JsonList.cons v vs2, q3)
    | none => none) = _
  rw [h2]

theorem parseFieldsRest_comma (f : Nat) (r kbody r3 r4 rest : List Char) (k : String)
    (v : Json) (fs : JsonFields)
    (hr : skipWs r = '"' :: kbody)
    (hk : parseStringAux [] kbody = some (k, ':' :: r3))
    (hv : parseVal f (skipWs r3) = some (v, r4))
    (hf : parseFieldsRest f r4 = some (fs, rest)) :
    parseFieldsRest (f + 1) (',' :: r) = some (JsonFields.cons k v fs, rest) := by
  have e : parseFieldsRest (f + 1) (',' :: r) =
      cond (headIs '"' (skipWs r))
        (match parseStringAux [] (skipWs r).tail with
         | some (k2, q2) =>
           cond (headIs ':' q2)
             (match parseVal f (skipWs q2.tail) with
              | some (v2, q3) =>
                match parseFieldsRest f q3 with
                | some (fs2, q4) => some (JsonFields.cons k2 v2 fs2, q4)
                | none => none
              | none => none)
             none
         | none => none)
        none := rfl
  rw [e, hr, show headIs '"' ('"' :: kbody) = true from rfl, Bool.cond_true,
    show ('"' :: kbody).tail = kbody from rfl, hk]
  show cond (headIs ':' (':' :: r3))
      (match parseVal f (skipWs (':' :: r3).tail) with
       | some (v2, q3) =>
         match parseFieldsRest f q3 with
         | some (fs2, q4) => some (JsonFields.cons k v2 fs2, q4)
         | none => none
       | none => none)
      none = _
  rw [show headIs ':' (':' :: r3) = true from rfl, Bool.cond_true,
    show (':' :: r3).tail = r3 from rfl, hv]
  show (match parseFieldsRest f r4 with
    | some (fs2, q4) => some (JsonFields.cons k v fs2, q4)
    | none => none) = _
  rw [hf]

theorem sizeV_pos (v : Json) : 1 ≤ sizeV v := by
  cases v with
  | null => exact le_rfl
  | bool b => cases b <;> exact le_rfl
  | num n => exact le_rfl
  | str s => exact le_rfl
  | arr l =>
    cases l with
    | nil => exact le_rfl
    | cons x xs =>
      have e : sizeV (Json.arr (JsonList.cons x xs)) = 1 + sizeV x + sizeItems xs := rfl
      omega
  | obj l =>
    cases l with
    | nil => exact le_rfl
    | cons k v fs =>
      have e : sizeV (Json.obj (JsonFields.cons k v fs)) = 1 + sizeV v + sizeFields fs := rfl
      omega

theorem sizeItems_pos (xs : JsonList) : 1 ≤ sizeItems xs := by
  cases xs with
  | nil => exact le_rfl
  | cons x tl =>
    have e : sizeItems (JsonList.cons x tl) = 1 + sizeV x + sizeItems tl := rfl
    omega

theorem sizeFields_pos (fs : JsonFields) : 1 ≤ sizeFields fs := by
  cases fs with
  | nil => exact le_rfl
  | cons k v tl =>
    have e : sizeFields (JsonFields.cons k v tl) = 1 + sizeV v + sizeFields tl := rfl
    omega

theorem parses_encode (f : Nat) :
    (∀ v rest, sizeV v ≤ f → noDigitHead rest = true →
      parseVal f (encodeVal v ++ rest) = some (v, rest)) ∧
    (∀ xs rest, sizeItems xs ≤ f →
      parseItemsRest f (encodeItemsRest xs ++ rest) = some (xs, rest)) ∧
    (∀ fs rest, sizeFields fs ≤ f →
      parseFieldsRest f (encodeFieldsRest fs ++ rest) = some (fs, rest)) := by
  induction f with
  | zero =>
    refine ⟨fun v rest hsz _ => absurd hsz (by have := sizeV_pos v; omega),
      fun xs rest hsz => absurd hsz (by have := sizeItems_pos xs; omega),
      fun fs rest hsz => absurd hsz (by have := sizeFields_pos fs; omega)⟩
  | succ f ih =>
    obtain ⟨ihV, ihI, ihF⟩ := ih
    refine ⟨?_, ?_, ?_⟩
    · intro v rest hsz hnd
      cases v with
      | null => rfl
      | bool b => cases b <;> rfl
      | num n =>
        by_cases hn : n < 0
        · rw [show encodeVal (Json.num n) = '-' :: natChars n.natAbs by
            rw [show encodeVal (Json.num n) = encodeInt n from rfl, encodeInt, if_pos hn]]
          rw [List.cons_append, parseVal_negNatChars f n.natAbs rest hnd,
            show (-(n.natAbs : Int)) = n by omega]
        · rw [show encodeVal (Json.num n) = natChars n.toNat by
            rw [show encodeVal (Json.num n) = encodeInt n from rfl, encodeInt, if_neg hn]]
          rw [parseVal_natChars f n.toNat rest hnd,
            show ((n.toNat : Nat) : Int) = n by omega]
      | str s =>
        rw [show encodeVal (Json.str s) ++ rest
            = '"' :: (escapeList s.data ++ '"' :: rest) by
          rw [show encodeVal (Json.str s) = '"' :: (escapeList s.data ++ ['"']) from rfl]
          simp]
        exact parseVal_quote f _ rest s
          (by simpa [string_mk_data] using parseStringAux_escape s.data [] rest)
      | arr l =>
        cases l with
        | nil => rfl
        | cons x xs =>
          have hsz' : 1 + sizeV x + sizeItems xs ≤ f + 1 := hsz
          rw [show encodeVal (Json.arr (JsonList.cons x xs)) ++ rest
              = '[' :: (encodeVal x ++ (encodeItemsRest xs ++ rest)) by
            rw [show encodeVal (Json.arr (JsonList.cons x xs))
                = '[' :: (encodeVal x ++ encodeItemsRest xs) from rfl]
            simp]
          exact parseVal_arrCons f _ _ rest x xs (headIs_encodeVal x _)
            (ihV x _ (by omega) (noDigitHead_itemsRest xs rest))
            (ihI xs rest (by omega))
      | obj l =>
        cases l with
        | nil => rfl
        | cons k v fs =>
          have hsz' : 1 + sizeV v + sizeFields fs ≤ f + 1 := hsz
          rw [show encodeVal (Json.obj (JsonFields.cons k v fs)) ++ rest
              = '{' :: '"' :: (escapeList k.data
                  ++ '"' :: ':' :: ' ' :: (encodeVal v ++ (encodeFieldsRest fs ++ rest))) by
            rw [show encodeVal (Json.obj (JsonFields.cons k v fs))
                = '{' :: ('"' :: (escapeList k.data ++ ['"'])
                    ++ ':' :: ' ' :: (encodeVal v ++ encodeFieldsRest fs)) from rfl]
            simp]
          refine parseVal_objCons f
            (escapeList k.data
              ++ '"' :: ':' :: ' ' :: (encodeVal v ++ (encodeFieldsRest fs ++ rest)))
            (' ' :: (encodeVal v ++ (encodeFieldsRest fs ++ rest)))
            (encodeFieldsRest fs ++ rest) rest k v fs ?_ ?_ (ihF fs rest (by omega))
          · simpa [string_mk_data] using parseStringAux_escape k.data []
              (':' :: ' ' :: (encodeVal v ++ (encodeFieldsRest fs ++ rest)))
          · rw [skipWs_space, skipWs_encodeVal]
            exact ihV v _ (by omega) (noDigitHead_fieldsRest fs rest)
    · intro xs rest hsz
      cases xs with
      | nil => rfl
      | cons x tl =>
        have hsz' : 1 + sizeV x + sizeItems tl ≤ f + 1 := hsz
        rw [show encodeItemsRest (JsonList.cons x tl) ++ rest
            = ',' :: (' ' :: (encodeVal x ++ (encodeItemsRest tl ++ rest))) by
          rw [show encodeItemsRest (JsonList.cons x tl)
              = ',' :: ' ' :: (encodeVal x ++ encodeItemsRest tl) from rfl]
          simp]
        refine parseItemsRest_comma f
          (' ' :: (encodeVal x ++ (encodeItemsRest tl ++ rest)))
          (encodeItemsRest tl ++ rest) rest x tl ?_ (ihI tl rest (by omega))
        rw [skipWs_space, skipWs_encodeVal]
        exact ihV x _ (by omega) (noDigitHead_itemsRest tl rest)
    · intro fs rest hsz
      cases fs with
      | nil => rfl
      | cons k v tl =>
        have hsz' : 1 + sizeV v + sizeFields tl ≤ f + 1 := hsz
        rw [show encodeFieldsRest (JsonFields.cons k v tl) ++ rest
            = ',' :: (' ' :: ('"' :: (escapeList k.data
                ++ '"' :: ':' :: ' ' :: (encodeVal v ++ (encodeFieldsRest tl ++ rest))))) by
          rw [show encodeFieldsRest (JsonFields.cons k v tl)
              = ',' :: ' ' :: ('"' :: (escapeList k.data ++ ['"'])
                  ++ ':' :: ' ' :: (encodeVal v ++ encodeFieldsRest tl)) from rfl]
          simp]
        refine parseFieldsRest_comma f
          (' ' :: ('"' :: (escapeList k.data
            ++ '"' :: ':' :: ' ' :: (encodeVal v ++ (encodeFieldsRest tl ++ rest)))))
          (escapeList k.data
            ++ '"' :: ':' :: ' ' :: (encodeVal v ++ (encodeFieldsRest tl ++ rest)))
          (' ' :: (encodeVal v ++ (encodeFieldsRest tl ++ rest)))
          (encodeFieldsRest tl ++ rest) rest k v tl rfl ?_ ?_ (ihF tl rest (by omega))
        · simpa [string_mk_data] using parseStringAux_escape k.data []
            (':' :: ' ' :: (encodeVal v ++ (encodeFieldsRest tl ++ rest)))
        · rw [skipWs_space, skipWs_encodeVal]
          exact ihV v _ (by omega) (noDigitHead_fieldsRest tl rest)

theorem natChars_length_pos (m : Nat) : 1 ≤ (natChars m).length := by
  obtain ⟨d, ds, _, _, hnat⟩ := natChars_shape m
  rw [hnat]
  simp

mutual

theorem sizeV_le_encode : ∀ v : Json, sizeV v ≤ 2 * (encodeVal v).length
  | .null => by decide
  | .bool b => by cases b <;> decide
  | .num n => by
    have e0 : sizeV (Json.num n) = 1 := rfl
    by_cases hn : n < 0
    · have e : encodeVal (Json.num n) = '-' :: natChars n.natAbs := by
        rw [show encodeVal (Json.num n) = encodeInt n from rfl, encodeInt, if_pos hn]
      have h1 := natChars_length_pos n.natAbs
      rw [e0, e]
      simp only [List.length_cons]
      omega
    · have e : encodeVal (Json.num n) = natChars n.toNat := by
        rw [show encodeVal (Json.num n) = encodeInt n from rfl, encodeInt, if_neg hn]
      have h1 := natChars_length_pos n.toNat
      rw [e0, e]
      omega
  | .str s => by
    have e0 : sizeV (Json.str s) = 1 := rfl
    have e : encodeVal (Json.str s) = '"' :: (escapeList s.data ++ ['"']) := rfl
    rw [e0, e]
    simp only [List.length_cons, List.length_append]
    omega
  | .arr JsonList.nil => by decide
  | .arr (JsonList.cons x xs) => by
    have hx := sizeV_le_encode x
    have hxs := sizeItems_le_encode xs
    have e0 : sizeV (Json.arr (JsonList.cons x xs)) = 1 + sizeV x + sizeItems xs := rfl
    have e : (encodeVal (Json.arr (JsonList.cons x xs))).length
        = 1 + ((encodeVal x).length + (encodeItemsRest xs).length) := by
      rw [show encodeVal (Json.arr (JsonList.cons x xs))
          = '[' :: (encodeVal x ++ encodeItemsRest xs) from rfl]
      simp
      omega
    rw [e0, e]
    omega
  | .obj JsonFields.nil => by decide
  | .obj (JsonFields.cons k v fs) => by
    have hv := sizeV_le_encode v
    have hfs := sizeFields_le_encode fs
    have e0 : sizeV (Json.obj (JsonFields.cons k v fs)) = 1 + sizeV v + sizeFields fs := rfl
    have e : (encodeVal (Json.obj (JsonFields.cons k v fs))).length
        = 1 + ((1 + ((escapeList k.data).length + 1))
            + (1 + (1 + ((encodeVal v).length + (encodeFieldsRest fs).length)))) := by
      rw [show encodeVal (Json.obj (JsonFields.cons k v fs))
          = '{' :: ('"' :: (escapeList k.data ++ ['"'])
              ++ ':' :: ' ' :: (encodeVal v ++ encodeFieldsRest fs)) from rfl]
      simp
      omega
    rw [e0, e]
    omega

theorem sizeItems_le_encode : ∀ xs : JsonList, sizeItems xs ≤ 2 * (encodeItemsRest xs).length
  | .nil => by decide
  | .cons x tl => by
    have hx := sizeV_le_encode x
    have ht := sizeItems_le_encode tl
    have e0 : sizeItems (JsonList.cons x tl) = 1 + sizeV x + sizeItems tl := rfl
    have e : (encodeItemsRest (JsonList.cons x tl)).length
        = 1 + (1 + ((encodeVal x).length + (encodeItemsRest tl).length)) := by
      rw [show encodeItemsRest (JsonList.cons x tl)
          = ',' :: ' ' :: (encodeVal x ++ encodeItemsRest tl) from rfl]
      simp
      omega
    rw [e0, e]
    omega

theorem sizeFields_le_encode : ∀ fs : JsonFields, sizeFields fs ≤ 2 * (encodeFieldsRest fs).length
  | .nil => by decide
  | .cons k v tl => by
    have hv := sizeV_le_encode v
    have ht := sizeFields_le_encode tl
    have e0 : sizeFields (JsonFields.cons k v tl) = 1 + sizeV v + sizeFields tl := rfl
    have e : (encodeFieldsRest (JsonFields.cons k v tl)).length
        = 1 + (1 + ((1 + ((escapeList k.data).length + 1))
            + (1 + (1 + ((encodeVal v).length + (encodeFieldsRest tl).length))))) := by
      rw [show encodeFieldsRest (JsonFields.cons k v tl)
          = ',' :: ' ' :: ('"' :: (escapeList k.data ++ ['"'])
              ++ ':' :: ' ' :: (encodeVal v ++ encodeFieldsRest tl)) from rfl]
      simp
      omega
    rw [e0, e]
    omega

end

/-- `json.loads` inverts `json.dumps` on the modelled payload domain. -/
theorem decodeJson_encodeJson (v : Json) : decodeJson (encodeJson v) = some v := by
  have hfuel : sizeV v ≤ 2 * (encodeVal v).length + 1 := by
    have := sizeV_le_encode v
    omega
  have hp := (parses_encode (2 * (encodeVal v).length + 1)).1 v [] hfuel rfl
  rw [List.append_nil] at hp
  have hskip : skipWs (encodeVal v) = encodeVal v := by
    simpa using skipWs_encodeVal v []
  show (match parseVal (2 * (encodeVal v).length + 1) (skipWs (encodeVal v)) with
    | some (w, rest) => if skipWs rest = [] then some w else none
    | none => none) = some v
  rw [hskip, hp]
  rfl

/-- One row of the `conversations` table, in rowid order. -/
structure ConvRow where
  id : Nat
  timestamp : String
  conversation_data : String
deriving DecidableEq

/-- One row of the `scraping_results` table. -/
structure ScrapRow where
  id : Nat
  timestamp : String
  url : String
  data : String
deriving DecidableEq

/-- One row of the `analysis_results` table. -/
structure AnalysisRow where
  id : Nat
  timestamp : String
  description : String
  data : String
deriving DecidableEq

/-- The SQLite database behind `SessionManager`: the four tables created by
`_init_database`, each list in rowid order with JSON text in the blob
columns, plus the `sqlite_sequence` counter of every AUTOINCREMENT table
(`DELETE FROM t` removes rows but does not reset that counter). -/
structure Store where
  conversations : List ConvRow
  conv_seq : Nat
  preferences : List (String × String)
  scraping_results : List ScrapRow
  scraping_seq : Nat
  analysis_results : List AnalysisRow
  analysis_seq : Nat
deriving DecidableEq

/-- A freshly initialised database. -/
def initStore : Store := ⟨[], 0, [], [], 0, [], 0⟩

/-- Per-call environment: `now` is what `time.strftime` returns during the
call and `fault` whether the backing engine raises an I/O exception inside
the method's `try` block. -/
structure Env where
  fault : Bool
  now : String
deriving DecidableEq

/-- `INSERT INTO conversations (timestamp, conversation_data) VALUES (?, ?)`;
AUTOINCREMENT assigns id `seq + 1` and bumps the sequence. -/
def insertConvRow (ts text : String) (s : Store) : Store :=
  { s with conversations := s.conversations ++ [⟨s.conv_seq + 1, ts, text⟩],
           conv_seq := s.conv_seq + 1 }

/-- `INSERT INTO scraping_results (timestamp, url, data) VALUES (?, ?, ?)`. -/
def insertScrapRow (ts url text : String) (s : Store) : Store :=
  { s with scraping_results := s.scraping_results ++ [⟨s.scraping_seq + 1, ts, url, text⟩],
           scraping_seq := s.scraping_seq + 1 }

/-- `INSERT INTO analysis_results (timestamp, description, data) VALUES (?, ?, ?)`. -/
def insertAnalysisRow (ts descr text : String) (s : Store) : Store :=
  { s with analysis_results := s.analysis_results ++ [⟨s.analysis_seq + 1, ts, descr, text⟩],
           analysis_seq := s.analysis_seq + 1 }

/-- `SessionManager.save_conversation`. -/
def save_conversation (env : Env) (conversation_data : Json) (s : Store) : Bool × Store :=
  if env.fault then (false, s)
  else (true, insertConvRow env.now (encodeJson conversation_data) s)

/-- `SessionManager.save_scraping_result`. -/
def save_scraping_result (env : Env) (url : String) (data : Json) (s : Store) : Bool × Store :=
  if env.fault then (false, s)
  else (true, insertScrapRow env.now url (encodeJson data) s)

/-- `SessionManager.save_analysis_result`. -/
def save_analysis_result (env : Env) (description : String) (data : Json) (s : Store) :
    Bool × Store :=
  if env.fault then (false, s)
  else (true, insertAnalysisRow env.now description (encodeJson data) s)

/-- Insert one element into a list sorted descending by `key`. -/
def insertDesc (key : α → Nat) (r : α) : List α → List α
  | [] => [r]
  | x :: xs => if key x ≤ key r then r :: x :: xs else x :: insertDesc key r xs

/-- `ORDER BY key DESC`. -/
def sortByKeyDesc (key : α → Nat) (l : List α) : List α :=
  l.foldr (insertDesc key) []

/-- SQLite `LIMIT ?`: a negative bound means no limit, otherwise at most
`limit` rows. -/
def limitClause (limit : Int) (l : List α) : List α :=
  if limit < 0 then l else l.take limit.toNat

/-- A conversation entry as `load_conversations` returns it
(`{'id': ..., 'timestamp': ..., 'data': json.loads(...)}`). -/
structure ConvRecord where
  id : Nat
  timestamp : String
  data : Json

/-- A scraping entry as `load_scraping_results` returns it. -/
structure ScrapRecord where
  id : Nat
  timestamp : String
  url : String
  data : Json

/-- An analysis entry as `load_analysis_results` returns it. -/
structure AnalysisRecord where
  id : Nat
  timestamp : String
  description : String
  data : Json

/-- `json.loads` of one selected conversation row. -/
def decodeConvRow (r : ConvRow) : Option ConvRecord :=
  (decodeJson r.conversation_data).map fun j => ⟨r.id, r.timestamp, j⟩

/-- `json.loads` of one selected scraping row. -/
def decodeScrapRow (r : ScrapRow) : Option ScrapRecord :=
  (decodeJson r.data).map fun j => ⟨r.id, r.timestamp, r.url, j⟩

/-- `json.loads` of one selected analysis row. -/
def decodeAnalysisRow (r : AnalysisRow) : Option AnalysisRecord :=
  (decodeJson r.data).map fun j => ⟨r.id, r.timestamp, r.description, j⟩

/-- `SessionManager.load_conversations`: `SELECT ... ORDER BY id DESC
LIMIT ?`, decoding each row; any fault inside the `try` yields `[]`. -/
def load_conversations (env : Env) (limit : Int) (s : Store) : List ConvRecord :=
  if env.fault then []
  else
    match (limitClause limit (sortByKeyDesc ConvRow.id s.conversations)).mapM decodeConvRow with
    | some recs => recs
    | none => []

/-- `SessionManager.load_scraping_results`. -/
def load_scraping_results (env : Env) (limit : Int) (s : Store) : List ScrapRecord :=
  if env.fault then []
  else
    match (limitClause limit (sortByKeyDesc ScrapRow.id s.scraping_results)).mapM decodeScrapRow with
    | some recs => recs
    | none => []

/-- `SessionManager.load_analysis_results`. -/
def load_analysis_results (env : Env) (limit : Int) (s : Store) : List AnalysisRecord :=
  if env.fault then []
  else
    match (limitClause limit (sortByKeyDesc AnalysisRow.id s.analysis_results)).mapM decodeAnalysisRow with
    | some recs => recs
    | none => []

/-- `INSERT OR REPLACE INTO preferences (key, value) VALUES (?, ?)`: the
conflicting row (the primary key is `key`) is deleted and the new row is
inserted with a fresh rowid, hence at the end. -/
def upsertPref (key value : String) (prefs : List (String × String)) :
    List (String × String) :=
  prefs.filter (fun p => !(p.1 == key)) ++ [(key, value)]

/-- `SELECT value FROM preferences WHERE key = ?`. -/
def lookupPref (key : String) (prefs : List (String × String)) : Option String :=
  (prefs.find? (fun p => p.1 == key)).map Prod.snd

/-- `SessionManager.save_preference`. -/
def save_preference (env : Env) (key : String) (value : Json) (s : Store) : Bool × Store :=
  if env.fault then (false, s)
  else (true, { s with preferences := upsertPref key (encodeJson value) s.preferences })

/-- `SessionManager.load_preference`: missing key or any fault (including a
`json.loads` failure) yields the caller-supplied default. -/
def load_preference (env : Env) (key : String) (dflt : Json) (s : Store) : Json :=
  if env.fault then dflt
  else
    match lookupPref key s.preferences with
    | some t =>
      match decodeJson t with
      | some v => v
      | none => dflt
    | none => dflt

/-- `SessionManager.clear_all_data`: `DELETE FROM` all four tables (the
sequence counters survive). -/
def clear_all_data (env : Env) (s : Store) : Bool × Store :=
  if env.fault then (false, s)
  else (true, { s with conversations := [], preferences := [],
                       scraping_results := [], analysis_results := [] })

/-- `SessionManager.clear_conversation_data`. -/
def clear_conversation_data (env : Env) (s : Store) : Bool × Store :=
  if env.fault then (false, s)
  else (true, { s with conversations := [] })

/-- `SessionManager.clear_scraping_data`. -/
def clear_scraping_data (env : Env) (s : Store) : Bool × Store :=
  if env.fault then (false, s)
  else (true, { s with scraping_results := [] })

/-- `SessionManager.clear_analysis_data`. -/
def clear_analysis_data (env : Env) (s : Store) : Bool × Store :=
  if env.fault then (false, s)
  else (true, { s with analysis_results := [] })

/-- `ApplicationController.clear_memory`: dispatch on the category name (its
additional clearing of in-memory module histories lies outside the store);
an unrecognised name returns `False` and touches nothing. -/
def clear_memory (env : Env) (memory_type : String) (s : Store) : Bool × Store :=
  if memory_type == "all" then clear_all_data env s
  else if memory_type == "conversations" then clear_conversation_data env s
  else if memory_type == "scraping" then clear_scraping_data env s
  else if memory_type == "analysis" then clear_analysis_data env s
  else (false, s)

/-- One `conversations` entry of the export document
(`{'id': ..., 'timestamp': ..., 'data': ...}`). -/
structure ConvEntry where
  id : Nat
  timestamp : String
  data : Json

/-- One `scraping_results` entry of the export document. -/
structure ScrapEntry where
  id : Nat
  timestamp : String
  url : String
  data : Json

/-- One `analysis_results` entry of the export document. -/
structure AnalysisEntry where
  id : Nat
  timestamp : String
  description : String
  data : Json

/-- The JSON document written by `export_all_data` and read by
`import_data`: the four category sections plus `export_timestamp`. -/
structure ExportDoc where
  conversations : List ConvEntry
  preferences : List (String × Json)
  scraping_results : List ScrapEntry
  analysis_results : List AnalysisEntry
  export_timestamp : String

/-- Decode one conversation row for export. -/
def decodeConvEntry (r : ConvRow) : Option ConvEntry :=
  (decodeJson r.conversation_data).map fun j => ⟨r.id, r.timestamp, j⟩

/-- Decode one preference row for export. -/
def decodePrefEntry (p : String × String) : Option (String × Json) :=
  (decodeJson p.2).map fun j => (p.1, j)

/-- Decode one scraping row for export. -/
def decodeScrapEntry (r : ScrapRow) : Option ScrapEntry :=
  (decodeJson r.data).map fun j => ⟨r.id, r.timestamp, r.url, j⟩

/-- Decode one analysis row for export. -/
def decodeAnalysisEntry (r : AnalysisRow) : Option AnalysisEntry :=
  (decodeJson r.data).map fun j => ⟨r.id, r.timestamp, r.description, j⟩

/-- `SessionManager.export_all_data`: read every table, `json.loads` every
blob, and write the combined document stamped with the current time; any
fault (I/O or decoding) makes the call return `False` with no document. -/
def export_all_data (env : Env) (s : Store) : Option ExportDoc :=
  if env.fault then none
  else
    match s.conversations.mapM decodeConvEntry, s.preferences.mapM decodePrefEntry,
        s.scraping_results.mapM decodeScrapEntry,
        s.analysis_results.mapM decodeAnalysisEntry with
    | some cs, some ps, some scs, some ans => some ⟨cs, ps, scs, ans, env.now⟩
    | _, _, _, _ => none

/-- Re-insert imported conversation entries, in document order, each with
the entry's own timestamp and a fresh AUTOINCREMENT id. -/
def importConvs (entries : List ConvEntry) (s : Store) : Store :=
  entries.foldl (fun st e => insertConvRow e.timestamp (encodeJson e.data) st) s

/-- Upsert imported preferences, in document order. -/
def importPrefs (entries : List (String × Json)) (s : Store) : Store :=
  entries.foldl
    (fun st p => { st with preferences := upsertPref p.1 (encodeJson p.2) st.preferences }) s

/-- Re-insert imported scraping entries, in document order. -/
def importScraps (entries : List ScrapEntry) (s : Store) : Store :=
  entries.foldl (fun st e => insertScrapRow e.timestamp e.url (encodeJson e.data) st) s

/-- Re-insert imported analysis entries, in document order. -/
def importAnalyses (entries : List AnalysisEntry) (s : Store) : Store :=
  entries.foldl
    (fun st e => insertAnalysisRow e.timestamp e.description (encodeJson e.data) st) s

/-- `SessionManager.import_data`: optionally `DELETE FROM` all four tables,
then insert the document's records (conversations, then preferences, then
scraping, then analysis), re-serialising each payload with `json.dumps` and
keeping each entry's own timestamp. -/
def import_data (env : Env) (doc : ExportDoc) (replace_existing : Bool) (s : Store) :
    Bool × Store :=
  if env.fault then (false, s)
  else
    (true,
      importAnalyses doc.analysis_results
        (importScraps doc.scraping_results
          (importPrefs doc.preferences
            (importConvs doc.conversations
              (if replace_existing then
                { s with conversations := [], preferences := [],
                         scraping_results := [], analysis_results := [] }
               else s)))))

/-- One write operation of the store, with its call environment (loads do
not change the state). -/
inductive Op where
  | saveConv (env : Env) (conversation_data : Json) : Op
  | savePref (env : Env) (key : String) (value : Json) : Op
  | saveScrap (env : Env) (url : String) (data : Json) : Op
  | saveAnalysis (env : Env) (description : String) (data : Json) : Op
  | clearAll (env : Env) : Op
  | clearConv (env : Env) : Op
  | clearScrap (env : Env) : Op
  | clearAnalysis (env : Env) : Op
  | doImport (env : Env) (doc : ExportDoc) (replace_existing : Bool) : Op

/-- The state reached after one operation. -/
def applyOp (o : Op) (s : Store) : Store :=
  match o with
  | .saveConv env d => (save_conversation env d s).2
  | .savePref env k v => (save_preference env k v s).2
  | .saveScrap env u d => (save_scraping_result env u d s).2
  | .saveAnalysis env de d => (save_analysis_result env de d s).2
  | .clearAll env => (clear_all_data env s).2
  | .clearConv env => (clear_conversation_data env s).2
  | .clearScrap env => (clear_scraping_data env s).2
  | .clearAnalysis env => (clear_analysis_data env s).2
  | .doImport env doc rep => (import_data env doc rep s).2

/-- The state reached from a start state by a sequence of operations. -/
def applyOps (ops : List Op) (s : Store) : Store :=
  ops.foldl (fun st o => applyOp o st) s

/-- A blob column holds canonical JSON text (something `json.dumps` can
produce), which is the case for every text the store itself writes. -/
def Canon (t : String) : Prop := ∃ v, encodeJson v = t

theorem canon_decode {t : String} (h : Canon t) : ∃ v, decodeJson t = some v ∧ encodeJson v = t := by
  obtain ⟨v, hv⟩ := h
  exact ⟨v, by rw [← hv, decodeJson_encodeJson], hv⟩

/-- Total variant of `decodeConvRow`, agreeing with it on canonical rows. -/
def decodeConvRowD (r : ConvRow) : ConvRecord :=
  ⟨r.id, r.timestamp, (decodeJson r.conversation_data).getD Json.null⟩

/-- Total variant of `decodeScrapRow`. -/
def decodeScrapRowD (r : ScrapRow) : ScrapRecord :=
  ⟨r.id, r.timestamp, r.url, (decodeJson r.data).getD Json.null⟩

/-- Total variant of `decodeAnalysisRow`. -/
def decodeAnalysisRowD (r : AnalysisRow) : AnalysisRecord :=
  ⟨r.id, r.timestamp, r.description, (decodeJson r.data).getD Json.null⟩

theorem mapM_eq_some_map {α β : Type} (f : α → Option β) (g : α → β) :
    ∀ l : List α, (∀ x ∈ l, f x = some (g x)) → l.mapM f = some (l.map g) := by
  intro l
  induction l with
  | nil => intro _; rfl
  | cons x xs ih =>
    intro h
    rw [List.mapM_cons, h x (by simp), ih (fun y hy => h y (by simp [hy]))]
    rfl

theorem mapM_decodeConvRow (l : List ConvRow)
    (h : ∀ r ∈ l, Canon r.conversation_data) :
    l.mapM decodeConvRow = some (l.map decodeConvRowD) := by
  refine mapM_eq_some_map _ _ l fun r hr => ?_
  obtain ⟨v, hv, he⟩ := canon_decode (h r hr)
  simp [decodeConvRow, decodeConvRowD, hv]

theorem mapM_decodeScrapRow (l : List ScrapRow)
    (h : ∀ r ∈ l, Canon r.data) :
    l.mapM decodeScrapRow = some (l.map decodeScrapRowD) := by
  refine mapM_eq_some_map _ _ l fun r hr => ?_
  obtain ⟨v, hv, he⟩ := canon_decode (h r hr)
  simp [decodeScrapRow, decodeScrapRowD, hv]

theorem mapM_decodeAnalysisRow (l : List AnalysisRow)
    (h : ∀ r ∈ l, Canon r.data) :
    l.mapM decodeAnalysisRow = some (l.map decodeAnalysisRowD) := by
  refine mapM_eq_some_map _ _ l fun r hr => ?_
  obtain ⟨v, hv, he⟩ := canon_decode (h r hr)
  simp [decodeAnalysisRow, decodeAnalysisRowD, hv]

theorem insertDesc_small {α : Type} (key : α → Nat) (r : α) :
    ∀ m : List α, (∀ x ∈ m, key r < key x) → insertDesc key r m = m ++ [r] := by
  intro m
  induction m with
  | nil => intro _; rfl
  | cons x xs ih =>
    intro h
    rw [insertDesc, if_neg (by have := h x (by simp); omega), ih (fun y hy => h y (by simp [hy]))]
    rfl

/-- Sorting rows already stored in strictly ascending key order (as every
AUTOINCREMENT table is) by descending key reverses them. -/
theorem sortByKeyDesc_eq_reverse {α : Type} (key : α → Nat) :
    ∀ l : List α, List.Pairwise (fun a b => key a < key b) l →
      sortByKeyDesc key l = l.reverse := by
  intro l
  induction l with
  | nil => intro _; rfl
  | cons a l ih =>
    intro h
    have e : sortByKeyDesc key (a :: l) = insertDesc key a (sortByKeyDesc key l) := rfl
    rw [e, ih h.tail, insertDesc_small key a l.reverse
      (fun x hx => (List.pairwise_cons.mp h).1 x (List.mem_reverse.mp hx))]
    simp

theorem limitClause_nonneg {α : Type} (k : Nat) (l : List α) :
    limitClause (k : Int) l = l.take k := by
  rw [limitClause, if_neg (by omega)]
  norm_num

theorem limitClause_neg {α : Type} (limit : Int) (l : List α) (h : limit < 0) :
    limitClause limit l = l := by
  rw [limitClause, if_pos h]

theorem limitClause_zero {α : Type} (l : List α) : limitClause 0 l = [] := by
  rw [limitClause, if_neg (by omega)]
  simp

/-- The conversation rows inserted for the given entries starting after
sequence value `seq`. -/
def convRowsFrom (seq : Nat) : List ConvEntry → List ConvRow
  | [] => []
  | e :: es => ⟨seq + 1, e.timestamp, encodeJson e.data⟩ :: convRowsFrom (seq + 1) es

/-- The scraping rows inserted for the given entries. -/
def scrapRowsFrom (seq : Nat) : List ScrapEntry → List ScrapRow
  | [] => []
  | e :: es => ⟨seq + 1, e.timestamp, e.url, encodeJson e.data⟩ :: scrapRowsFrom (seq + 1) es

/-- The analysis rows inserted for the given entries. -/
def analysisRowsFrom (seq : Nat) : List AnalysisEntry → List AnalysisRow
  | [] => []
  | e :: es =>
    ⟨seq + 1, e.timestamp, e.description, encodeJson e.data⟩ :: analysisRowsFrom (seq + 1) es

/-- The preference table after upserting the given entries in order. -/
def prefsAfter (entries : List (String × Json)) (prefs : List (String × String)) :
    List (String × String) :=
  entries.foldl (fun acc p => upsertPref p.1 (encodeJson p.2) acc) prefs

theorem importConvs_spec (entries : List ConvEntry) : ∀ s : Store,
    (importConvs entries s).conversations = s.conversations ++ convRowsFrom s.conv_seq entries ∧
    (importConvs entries s).conv_seq = s.conv_seq + entries.length ∧
    (importConvs entries s).preferences = s.preferences ∧
    (importConvs entries s).scraping_results = s.scraping_results ∧
    (importConvs entries s).scraping_seq = s.scraping_seq ∧
    (importConvs entries s).analysis_results = s.analysis_results ∧
    (importConvs entries s).analysis_seq = s.analysis_seq := by
  induction entries with
  | nil => intro s; simp [importConvs, convRowsFrom]
  | cons e es ih =>
    intro s
    obtain ⟨h1, h2, h3, h4, h5, h6, h7⟩ := ih (insertConvRow e.timestamp (encodeJson e.data) s)
    have e0 : importConvs (e :: es) s
        = importConvs es (insertConvRow e.timestamp (encodeJson e.data) s) := rfl
    rw [e0]
    refine ⟨?_, ?_, ?_, ?_, ?_, ?_, ?_⟩
    · rw [h1]; simp [insertConvRow, convRowsFrom]
    · rw [h2]; simp [insertConvRow]; omega
    · rw [h3]; rfl
    · rw [h4]; rfl
    · rw [h5]; rfl
    · rw [h6]; rfl
    · rw [h7]; rfl

theorem importScraps_spec (entries : List ScrapEntry) : ∀ s : Store,
    (importScraps entries s).scraping_results
        = s.scraping_results ++ scrapRowsFrom s.scraping_seq entries ∧
    (importScraps entries s).scraping_seq = s.scraping_seq + entries.length ∧
    (importScraps entries s).preferences = s.preferences ∧
    (importScraps entries s).conversations = s.conversations ∧
    (importScraps entries s).conv_seq = s.conv_seq ∧
    (importScraps entries s).analysis_results = s.analysis_results ∧
    (importScraps entries s).analysis_seq = s.analysis_seq := by
  induction entries with
  | nil => intro s; simp [importScraps, scrapRowsFrom]
  | cons e es ih =>
    intro s
    obtain ⟨h1, h2, h3, h4, h5, h6, h7⟩ :=
      ih (insertScrapRow e.timestamp e.url (encodeJson e.data) s)
    have e0 : importScraps (e :: es) s
        = importScraps es (insertScrapRow e.timestamp e.url (encodeJson e.data) s) := rfl
    rw [e0]
    refine ⟨?_, ?_, ?_, ?_, ?_, ?_, ?_⟩
    · rw [h1]; simp [insertScrapRow, scrapRowsFrom]
    · rw [h2]; simp [insertScrapRow]; omega
    · rw [h3]; rfl
    · rw [h4]; rfl
    · rw [h5]; rfl
    · rw [h6]; rfl
    · rw [h7]; rfl

theorem importAnalyses_spec (entries : List AnalysisEntry) : ∀ s : Store,
    (importAnalyses entries s).analysis_results
        = s.analysis_results ++ analysisRowsFrom s.analysis_seq entries ∧
    (importAnalyses entries s).analysis_seq = s.analysis_seq + entries.length ∧
    (importAnalyses entries s).preferences = s.preferences ∧
    (importAnalyses entries s).conversations = s.conversations ∧
    (importAnalyses entries s).conv_seq = s.conv_seq ∧
    (importAnalyses entries s).scraping_results = s.scraping_results ∧
    (importAnalyses entries s).scraping_seq = s.scraping_seq := by
  induction entries with
  | nil => intro s; simp [importAnalyses, analysisRowsFrom]
  | cons e es ih =>
    intro s
    obtain ⟨h1, h2, h3, h4, h5, h6, h7⟩ :=
      ih (insertAnalysisRow e.timestamp e.description (encodeJson e.data) s)
    have e0 : importAnalyses (e :: es) s
        = importAnalyses es (insertAnalysisRow e.timestamp e.description (encodeJson e.data) s) := rfl
    rw [e0]
    refine ⟨?_, ?_, ?_, ?_, ?_, ?_, ?_⟩
    · rw [h1]; simp [insertAnalysisRow, analysisRowsFrom]
    · rw [h2]; simp [insertAnalysisRow]; omega
    · rw [h3]; rfl
    · rw [h4]; rfl
    · rw [h5]; rfl
    · rw [h6]; rfl
    · rw [h7]; rfl

theorem importPrefs_spec (entries : List (String × Json)) : ∀ s : Store,
    (importPrefs entries s).preferences = prefsAfter entries s.preferences ∧
    (importPrefs entries s).conversations = s.conversations ∧
    (importPrefs entries s).conv_seq = s.conv_seq ∧
    (importPrefs entries s).scraping_results = s.scraping_results ∧
    (importPrefs entries s).scraping_seq = s.scraping_seq ∧
    (importPrefs entries s).analysis_results = s.analysis_results ∧
    (importPrefs entries s).analysis_seq = s.analysis_seq := by
  induction entries with
  | nil => intro s; simp [importPrefs, prefsAfter]
  | cons e es ih =>
    intro s
    obtain ⟨h1, h2, h3, h4, h5, h6, h7⟩ :=
      ih { s with preferences := upsertPref e.1 (encodeJson e.2) s.preferences }
    have e0 : importPrefs (e :: es) s
        = importPrefs es { s with preferences := upsertPref e.1 (encodeJson e.2) s.preferences } := rfl
    rw [e0]
    exact ⟨by rw [h1]; rfl, h2, h3, h4, h5, h6, h7⟩

/-- The records `load_conversations` yields for freshly inserted entries. -/
def convRecsFrom (seq : Nat) : List ConvEntry → List ConvRecord
  | [] => []
  | e :: es => ⟨seq + 1, e.timestamp, e.data⟩ :: convRecsFrom (seq + 1) es

theorem map_decodeConvRowD_rowsFrom (entries : List ConvEntry) : ∀ seq,
    (convRowsFrom seq entries).map decodeConvRowD = convRecsFrom seq entries := by
  induction entries with
  | nil => intro seq; rfl
  | cons e es ih =>
    intro seq
    simp only [convRowsFrom, convRecsFrom, List.map_cons, ih (seq + 1)]
    simp [decodeConvRowD, decodeJson_encodeJson]

theorem canon_convRowsFrom (entries : List ConvEntry) : ∀ seq r,
    r ∈ convRowsFrom seq entries → Canon r.conversation_data := by
  induction entries with
  | nil => intro seq r hr; simp [convRowsFrom] at hr
  | cons e es ih =>
    intro seq r hr
    rw [convRowsFrom] at hr
    rcases List.mem_cons.mp hr with h | h
    · exact ⟨e.data, by rw [h]⟩
    · exact ih (seq + 1) r h

theorem canon_scrapRowsFrom (entries : List ScrapEntry) : ∀ seq r,
    r ∈ scrapRowsFrom seq entries → Canon r.data := by
  induction entries with
  | nil => intro seq r hr; simp [scrapRowsFrom] at hr
  | cons e es ih =>
    intro seq r hr
    rw [scrapRowsFrom] at hr
    rcases List.mem_cons.mp hr with h | h
    · exact ⟨e.data, by rw [h]⟩
    · exact ih (seq + 1) r h

theorem canon_analysisRowsFrom (entries : List AnalysisEntry) : ∀ seq r,
    r ∈ analysisRowsFrom seq entries → Canon r.data := by
  induction entries with
  | nil => intro seq r hr; simp [analysisRowsFrom] at hr
  | cons e es ih =>
    intro seq r hr
    rw [analysisRowsFrom] at hr
    rcases List.mem_cons.mp hr with h | h
    · exact ⟨e.data, by rw [h]⟩
    · exact ih (seq + 1) r h

theorem convRowsFrom_mem_id (entries : List ConvEntry) : ∀ seq r,
    r ∈ convRowsFrom seq entries → seq < r.id ∧ r.id ≤ seq + entries.length := by
  induction entries with
  | nil => intro seq r hr; simp [convRowsFrom] at hr
  | cons e es ih =>
    intro seq r hr
    rw [convRowsFrom] at hr
    rcases List.mem_cons.mp hr with h | h
    · subst h; simp
    · have := ih (seq + 1) r h
      constructor <;> [omega; (simp only [List.length_cons]; omega)]

theorem convRowsFrom_pairwise (entries : List ConvEntry) : ∀ seq,
    List.Pairwise (fun a b : ConvRow => a.id < b.id) (convRowsFrom seq entries) := by
  induction entries with
  | nil => intro seq; exact List.Pairwise.nil
  | cons e es ih =>
    intro seq
    rw [convRowsFrom]
    refine List.pairwise_cons.mpr ⟨fun r hr => ?_, ih (seq + 1)⟩
    have := convRowsFrom_mem_id es (seq + 1) r hr
    simp
    omega

theorem scrapRowsFrom_mem_id (entries : List ScrapEntry) : ∀ seq r,
    r ∈ scrapRowsFrom seq entries → seq < r.id ∧ r.id ≤ seq + entries.length := by
  induction entries with
  | nil => intro seq r hr; simp [scrapRowsFrom] at hr
  | cons e es ih =>
    intro seq r hr
    rw [scrapRowsFrom] at hr
    rcases List.mem_cons.mp hr with h | h
    · subst h; simp
    · have := ih (seq + 1) r h
      constructor <;> [omega; (simp only [List.length_cons]; omega)]

theorem scrapRowsFrom_pairwise (entries : List ScrapEntry) : ∀ seq,
    List.Pairwise (fun a b : ScrapRow => a.id < b.id) (scrapRowsFrom seq entries) := by
  induction entries with
  | nil => intro seq; exact List.Pairwise.nil
  | cons e es ih =>
    intro seq
    rw [scrapRowsFrom]
    refine List.pairwise_cons.mpr ⟨fun r hr => ?_, ih (seq + 1)⟩
    have := scrapRowsFrom_mem_id es (seq + 1) r hr
    simp
    omega

theorem analysisRowsFrom_mem_id (entries : List AnalysisEntry) : ∀ seq r,
    r ∈ analysisRowsFrom seq entries → seq < r.id ∧ r.id ≤ seq + entries.length := by
  induction entries with
  | nil => intro seq r hr; simp [analysisRowsFrom] at hr
  | cons e es ih =>
    intro seq r hr
    rw [analysisRowsFrom] at hr
    rcases List.mem_cons.mp hr with h | h
    · subst h; simp
    · have := ih (seq + 1) r h
      constructor <;> [omega; (simp only [List.length_cons]; omega)]

theorem analysisRowsFrom_pairwise (entries : List AnalysisEntry) : ∀ seq,
    List.Pairwise (fun a b : AnalysisRow => a.id < b.id) (analysisRowsFrom seq entries) := by
  induction entries with
  | nil => intro seq; exact List.Pairwise.nil
  | cons e es ih =>
    intro seq
    rw [analysisRowsFrom]
    refine List.pairwise_cons.mpr ⟨fun r hr => ?_, ih (seq + 1)⟩
    have := analysisRowsFrom_mem_id es (seq + 1) r hr
    simp
    omega

/-- The id discipline of one AUTOINCREMENT table: strictly increasing ids in
rowid order, all bounded by the sequence counter. -/
def TableOk {α : Type} (key : α → Nat) (rows : List α) (seq : Nat) : Prop :=
  List.Pairwise (fun a b => key a < key b) rows ∧ ∀ r ∈ rows, key r ≤ seq

/-- The id discipline of the three AUTOINCREMENT tables of the store. -/
def StoreIdsOk (s : Store) : Prop :=
  TableOk ConvRow.id s.conversations s.conv_seq ∧
  TableOk ScrapRow.id s.scraping_results s.scraping_seq ∧
  TableOk AnalysisRow.id s.analysis_results s.analysis_seq

theorem tableOk_append {α : Type} (key : α → Nat) (rows rows2 : List α) (seq seq2 : Nat)
    (h : TableOk key rows seq)
    (hp : List.Pairwise (fun a b => key a < key b) rows2)
    (hmem : ∀ r ∈ rows2, seq < key r ∧ key r ≤ seq2) (hle : seq ≤ seq2) :
    TableOk key (rows ++ rows2) seq2 := by
  constructor
  · rw [List.pairwise_append]
    exact ⟨h.1, hp, fun x hx y hy => lt_of_le_of_lt (h.2 x hx) (hmem y hy).1⟩
  · intro r hr
    rcases List.mem_append.mp hr with h1 | h1
    · exact le_trans (h.2 r h1) hle
    · exact (hmem r h1).2

theorem tableOk_nil {α : Type} (key : α → Nat) (seq : Nat) : TableOk key [] seq :=
  ⟨List.Pairwise.nil, by simp⟩

theorem storeIdsOk_init : StoreIdsOk initStore :=
  ⟨tableOk_nil _ _, tableOk_nil _ _, tableOk_nil _ _⟩

theorem storeIdsOk_insertConv (ts d : String) (s : Store) (h : StoreIdsOk s) :
    StoreIdsOk (insertConvRow ts d s) := by
  obtain ⟨h1, h2, h3⟩ := h
  refine ⟨?_, h2, h3⟩
  have e : (insertConvRow ts d s).conversations
      = s.conversations ++ [⟨s.conv_seq + 1, ts, d⟩] := rfl
  rw [show (insertConvRow ts d s).conv_seq = s.conv_seq + 1 from rfl, e]
  exact tableOk_append _ _ _ _ _ h1 (List.pairwise_singleton _ _)
    (by intro r hr; simp at hr; subst hr; simp) (by omega)

theorem storeIdsOk_insertScrap (ts u d : String) (s : Store) (h : StoreIdsOk s) :
    StoreIdsOk (insertScrapRow ts u d s) := by
  obtain ⟨h1, h2, h3⟩ := h
  refine ⟨h1, ?_, h3⟩
  have e : (insertScrapRow ts u d s).scraping_results
      = s.scraping_results ++ [⟨s.scraping_seq + 1, ts, u, d⟩] := rfl
  rw [show (insertScrapRow ts u d s).scraping_seq = s.scraping_seq + 1 from rfl, e]
  exact tableOk_append _ _ _ _ _ h2 (List.pairwise_singleton _ _)
    (by intro r hr; simp at hr; subst hr; simp) (by omega)

theorem storeIdsOk_insertAnalysis (ts de d : String) (s : Store) (h : StoreIdsOk s) :
    StoreIdsOk (insertAnalysisRow ts de d s) := by
  obtain ⟨h1, h2, h3⟩ := h
  refine ⟨h1, h2, ?_⟩
  have e : (insertAnalysisRow ts de d s).analysis_results
      = s.analysis_results ++ [⟨s.analysis_seq + 1, ts, de, d⟩] := rfl
  rw [show (insertAnalysisRow ts de d s).analysis_seq = s.analysis_seq + 1 from rfl, e]
  exact tableOk_append _ _ _ _ _ h3 (List.pairwise_singleton _ _)
    (by intro r hr; simp at hr; subst hr; simp) (by omega)

theorem import_data_spec (env : Env) (doc : ExportDoc) (rep : Bool) (s : Store)
    (hf : env.fault = false) :
    (import_data env doc rep s).1 = true ∧
    (import_data env doc rep s).2.conversations
      = (if rep then [] else s.conversations) ++ convRowsFrom s.conv_seq doc.conversations ∧
    (import_data env doc rep s).2.conv_seq = s.conv_seq + doc.conversations.length ∧
    (import_data env doc rep s).2.preferences
      = prefsAfter doc.preferences (if rep then [] else s.preferences) ∧
    (import_data env doc rep s).2.scraping_results
      = (if rep then [] else s.scraping_results)
          ++ scrapRowsFrom s.scraping_seq doc.scraping_results ∧
    (import_data env doc rep s).2.scraping_seq
      = s.scraping_seq + doc.scraping_results.length ∧
    (import_data env doc rep s).2.analysis_results
      = (if rep then [] else s.analysis_results)
          ++ analysisRowsFrom s.analysis_seq doc.analysis_results ∧
    (import_data env doc rep s).2.analysis_seq
      = s.analysis_seq + doc.analysis_results.length := by
  have hs1 : ∀ s1 : Store,
      s1 = (if rep then
          { s with conversations := [], preferences := [],
                   scraping_results := [], analysis_results := [] }
        else s) →
      s1.conversations = (if rep then [] else s.conversations) ∧
      s1.conv_seq = s.conv_seq ∧
      s1.preferences = (if rep then [] else s.preferences) ∧
      s1.scraping_results = (if rep then [] else s.scraping_results) ∧
      s1.scraping_seq = s.scraping_seq ∧
      s1.analysis_results = (if rep then [] else s.analysis_results) ∧
      s1.analysis_seq = s.analysis_seq := by
    intro s1 h1
    subst h1
    cases rep <;> exact ⟨rfl, rfl, rfl, rfl, rfl, rfl, rfl⟩
  obtain ⟨k1, k2, k3, k4, k5, k6, k7⟩ := hs1 _ rfl
  have he : import_data env doc rep s
      = (true, importAnalyses doc.analysis_results
          (importScraps doc.scraping_results
            (importPrefs doc.preferences
              (importConvs doc.conversations
                (if rep then
                  { s with conversations := [], preferences := [],
                           scraping_results := [], analysis_results := [] }
                 else s))))) := by
    rw [import_data, hf]
    simp
  obtain ⟨c1, c2, c3, c4, c5, c6, c7⟩ := importConvs_spec doc.conversations _
  obtain ⟨p1, p2, p3, p4, p5, p6, p7⟩ := importPrefs_spec doc.preferences
    (importConvs doc.conversations _)
  obtain ⟨q1, q2, q3, q4, q5, q6, q7⟩ := importScraps_spec doc.scraping_results
    (importPrefs doc.preferences (importConvs doc.conversations _))
  obtain ⟨a1, a2, a3, a4, a5, a6, a7⟩ := importAnalyses_spec doc.analysis_results
    (importScraps doc.scraping_results
      (importPrefs doc.preferences (importConvs doc.conversations _)))
  rw [he]
  refine ⟨rfl, ?_, ?_, ?_, ?_, ?_, ?_, ?_⟩
  · rw [show (true, importAnalyses doc.analysis_results
        (importScraps doc.scraping_results
          (importPrefs doc.preferences (importConvs doc.conversations _)))).2
      = importAnalyses doc.analysis_results
        (importScraps doc.scraping_results
          (importPrefs doc.preferences (importConvs doc.conversations _))) from rfl,
      a4, q4, p2, c1, k1, k2]
  · rw [show (true, importAnalyses doc.analysis_results
        (importScraps doc.scraping_results
          (importPrefs doc.preferences (importConvs doc.conversations _)))).2
      = importAnalyses doc.analysis_results
        (importScraps doc.scraping_results
          (importPrefs doc.preferences (importConvs doc.conversations _))) from rfl,
      a5, q5, p3, c2, k2]
  · rw [show (true, importAnalyses doc.analysis_results
        (importScraps doc.scraping_results
          (importPrefs doc.preferences (importConvs doc.conversations _)))).2
      = importAnalyses doc.analysis_results
        (importScraps doc.scraping_results
          (importPrefs doc.preferences (importConvs doc.conversations _))) from rfl,
      a3, q3, p1, c3, k3]
  · rw [show (true, importAnalyses doc.analysis_results
        (importScraps doc.scraping_results
          (importPrefs doc.preferences (importConvs doc.conversations _)))).2
      = importAnalyses doc.analysis_results
        (importScraps doc.scraping_results
          (importPrefs doc.preferences (importConvs doc.conversations _))) from rfl,
      a6, q1, p4, c4, p5, c5, k4, k5]
  · rw [show (true, importAnalyses doc.analysis_results
        (importScraps doc.scraping_results
          (importPrefs doc.preferences (importConvs doc.conversations _)))).2
      = importAnalyses doc.analysis_results
        (importScraps doc.scraping_results
          (importPrefs doc.preferences (importConvs doc.conversations _))) from rfl,
      a7, q2, p5, c5, k5]
  · rw [show (true, importAnalyses doc.analysis_results
        (importScraps doc.scraping_results
          (importPrefs doc.preferences (importConvs doc.conversations _)))).2
      = importAnalyses doc.analysis_results
        (importScraps doc.scraping_results
          (importPrefs doc.preferences (importConvs doc.conversations _))) from rfl,
      a1, q6, p6, c6, q7, p7, c7, k6, k7]
  · rw [show (true, importAnalyses doc.analysis_results
        (importScraps doc.scraping_results
          (importPrefs doc.preferences (importConvs doc.conversations _)))).2
      = importAnalyses doc.analysis_results
        (importScraps doc.scraping_results
          (importPrefs doc.preferences (importConvs doc.conversations _))) from rfl,
      a2, q7, p7, c7, k7]

theorem storeIdsOk_applyOp (o : Op) (s : Store) (h : StoreIdsOk s) :
    StoreIdsOk (applyOp o s) := by
  cases o with
  | saveConv env d =>
    by_cases hf : env.fault
    · have e : applyOp (Op.saveConv env d) s = s := by
        simp [applyOp, save_conversation, hf]
      rw [e]; exact h
    · have e : applyOp (Op.saveConv env d) s = insertConvRow env.now (encodeJson d) s := by
        simp [applyOp, save_conversation, hf]
      rw [e]; exact storeIdsOk_insertConv _ _ s h
  | saveScrap env u d =>
    by_cases hf : env.fault
    · have e : applyOp (Op.saveScrap env u d) s = s := by
        simp [applyOp, save_scraping_result, hf]
      rw [e]; exact h
    · have e : applyOp (Op.saveScrap env u d) s
          = insertScrapRow env.now u (encodeJson d) s := by
        simp [applyOp, save_scraping_result, hf]
      rw [e]; exact storeIdsOk_insertScrap _ _ _ s h
  | saveAnalysis env de d =>
    by_cases hf : env.fault
    · have e : applyOp (Op.saveAnalysis env de d) s = s := by
        simp [applyOp, save_analysis_result, hf]
      rw [e]; exact h
    · have e : applyOp (Op.saveAnalysis env de d) s
          = insertAnalysisRow env.now de (encodeJson d) s := by
        simp [applyOp, save_analysis_result, hf]
      rw [e]; exact storeIdsOk_insertAnalysis _ _ _ s h
  | savePref env k v =>
    by_cases hf : env.fault
    · have e : applyOp (Op.savePref env k v) s = s := by
        simp [applyOp, save_preference, hf]
      rw [e]; exact h
    · have e : applyOp (Op.savePref env k v) s
          = { s with preferences := upsertPref k (encodeJson v) s.preferences } := by
        simp [applyOp, save_preference, hf]
      rw [e]; exact h
  | clearAll env =>
    by_cases hf : env.fault
    · have e : applyOp (Op.clearAll env) s = s := by
        simp [applyOp, clear_all_data, hf]
      rw [e]; exact h
    · have e : applyOp (Op.clearAll env) s
          = { s with conversations := [], preferences := [],
                     scraping_results := [], analysis_results := [] } := by
        simp [applyOp, clear_all_data, hf]
      rw [e]; exact ⟨tableOk_nil _ _, tableOk_nil _ _, tableOk_nil _ _⟩
  | clearConv env =>
    by_cases hf : env.fault
    · have e : applyOp (Op.clearConv env) s = s := by
        simp [applyOp, clear_conversation_data, hf]
      rw [e]; exact h
    · have e : applyOp (Op.clearConv env) s = { s with conversations := [] } := by
        simp [applyOp, clear_conversation_data, hf]
      rw [e]; exact ⟨tableOk_nil _ _, h.2.1, h.2.2⟩
  | clearScrap env =>
    by_cases hf : env.fault
    · have e : applyOp (Op.clearScrap env) s = s := by
        simp [applyOp, clear_scraping_data, hf]
      rw [e]; exact h
    · have e : applyOp (Op.clearScrap env) s = { s with scraping_results := [] } := by
        simp [applyOp, clear_scraping_data, hf]
      rw [e]; exact ⟨h.1, tableOk_nil _ _, h.2.2⟩
  | clearAnalysis env =>
    by_cases hf : env.fault
    · have e : applyOp (Op.clearAnalysis env) s = s := by
        simp [applyOp, clear_analysis_data, hf]
      rw [e]; exact h
    · have e : applyOp (Op.clearAnalysis env) s = { s with analysis_results := [] } := by
        simp [applyOp, clear_analysis_data, hf]
      rw [e]; exact ⟨h.1, h.2.1, tableOk_nil _ _⟩
  | doImport env doc rep =>
    by_cases hf : env.fault
    · have e : applyOp (Op.doImport env doc rep) s = s := by
        simp [applyOp, import_data, hf]
      rw [e]; exact h
    · obtain ⟨_, i2, i3, _, i5, i6, i7, i8⟩ :=
        import_data_spec env doc rep s (by simp [hf])
      have e : applyOp (Op.doImport env doc rep) s = (import_data env doc rep s).2 := rfl
      rw [e]
      refine ⟨?_, ?_, ?_⟩
      · rw [StoreIdsOk] at h
        rw [i2, i3]
        refine tableOk_append _ _ _ _ _ ?_ (convRowsFrom_pairwise _ _)
          (fun r hr => convRowsFrom_mem_id _ _ r hr) (by omega)
        cases rep with
        | true => simpa using tableOk_nil ConvRow.id s.conv_seq
        | false => simpa using h.1
      · rw [i5, i6]
        refine tableOk_append _ _ _ _ _ ?_ (scrapRowsFrom_pairwise _ _)
          (fun r hr => scrapRowsFrom_mem_id _ _ r hr) (by omega)
        cases rep with
        | true => simpa using tableOk_nil ScrapRow.id s.scraping_seq
        | false => simpa using h.2.1
      · rw [i7, i8]
        refine tableOk_append _ _ _ _ _ ?_ (analysisRowsFrom_pairwise _ _)
          (fun r hr => analysisRowsFrom_mem_id _ _ r hr) (by omega)
        cases rep with
        | true => simpa using tableOk_nil AnalysisRow.id s.analysis_seq
        | false => simpa using h.2.2

theorem storeIdsOk_applyOps (ops : List Op) : ∀ s, StoreIdsOk s → StoreIdsOk (applyOps ops s) := by
  induction ops with
  | nil => intro s h; exact h
  | cons o os ih =>
    intro s h
    have e : applyOps (o :: os) s = applyOps os (applyOp o s) := rfl
    rw [e]
    exact ih _ (storeIdsOk_applyOp o s h)

theorem applyOp_seq_mono (o : Op) (s : Store) :
    s.conv_seq ≤ (applyOp o s).conv_seq ∧
    s.scraping_seq ≤ (applyOp o s).scraping_seq ∧
    s.analysis_seq ≤ (applyOp o s).analysis_seq := by
  cases o with
  | saveConv env d =>
    by_cases hf : env.fault
    · simp [applyOp, save_conversation, hf]
    · simp [applyOp, save_conversation, hf, insertConvRow]
  | saveScrap env u d =>
    by_cases hf : env.fault
    · simp [applyOp, save_scraping_result, hf]
    · simp [applyOp, save_scraping_result, hf, insertScrapRow]
  | saveAnalysis env de d =>
    by_cases hf : env.fault
    · simp [applyOp, save_analysis_result, hf]
    · simp [applyOp, save_analysis_result, hf, insertAnalysisRow]
  | savePref env k v =>
    by_cases hf : env.fault <;> simp [applyOp, save_preference, hf]
  | clearAll env =>
    by_cases hf : env.fault <;> simp [applyOp, clear_all_data, hf]
  | clearConv env =>
    by_cases hf : env.fault <;> simp [applyOp, clear_conversation_data, hf]
  | clearScrap env =>
    by_cases hf : env.fault <;> simp [applyOp, clear_scraping_data, hf]
  | clearAnalysis env =>
    by_cases hf : env.fault <;> simp [applyOp, clear_analysis_data, hf]
  | doImport env doc rep =>
    by_cases hf : env.fault
    · simp [applyOp, import_data, hf]
    · obtain ⟨_, _, i3, _, _, i6, _, i8⟩ := import_data_spec env doc rep s (by simp [hf])
      have e : applyOp (Op.doImport env doc rep) s = (import_data env doc rep s).2 := rfl
      rw [e, i3, i6, i8]
      omega

theorem applyOp_fresh (o : Op) (s : Store) :
    (∀ r ∈ (applyOp o s).conversations, r ∈ s.conversations ∨ s.conv_seq < r.id) ∧
    (∀ r ∈ (applyOp o s).scraping_results, r ∈ s.scraping_results ∨ s.scraping_seq < r.id) ∧
    (∀ r ∈ (applyOp o s).analysis_results, r ∈ s.analysis_results ∨ s.analysis_seq < r.id) := by
  cases o with
  | saveConv env d =>
    by_cases hf : env.fault
    · exact ⟨fun r hr => Or.inl (by simpa [applyOp, save_conversation, hf] using hr),
        fun r hr => Or.inl (by simpa [applyOp, save_conversation, hf] using hr),
        fun r hr => Or.inl (by simpa [applyOp, save_conversation, hf] using hr)⟩
    · refine ⟨fun r hr => ?_,
        fun r hr => Or.inl (by simpa [applyOp, save_conversation, hf, insertConvRow] using hr),
        fun r hr => Or.inl (by simpa [applyOp, save_conversation, hf, insertConvRow] using hr)⟩
      have e : (applyOp (Op.saveConv env d) s).conversations
          = s.conversations ++ [⟨s.conv_seq + 1, env.now, encodeJson d⟩] := by
        simp [applyOp, save_conversation, hf, insertConvRow]
      rw [e] at hr
      rcases List.mem_append.mp hr with h1 | h1
      · exact Or.inl h1
      · right; simp at h1; subst h1; simp
  | saveScrap env u d =>
    by_cases hf : env.fault
    · exact ⟨fun r hr => Or.inl (by simpa [applyOp, save_scraping_result, hf] using hr),
        fun r hr => Or.inl (by simpa [applyOp, save_scraping_result, hf] using hr),
        fun r hr => Or.inl (by simpa [applyOp, save_scraping_result, hf] using hr)⟩
    · refine ⟨fun r hr =>
        Or.inl (by simpa [applyOp, save_scraping_result, hf, insertScrapRow] using hr),
        fun r hr => ?_,
        fun r hr => Or.inl (by simpa [applyOp, save_scraping_result, hf, insertScrapRow] using hr)⟩
      have e : (applyOp (Op.saveScrap env u d) s).scraping_results
          = s.scraping_results ++ [⟨s.scraping_seq + 1, env.now, u, encodeJson d⟩] := by
        simp [applyOp, save_scraping_result, hf, insertScrapRow]
      rw [e] at hr
      rcases List.mem_append.mp hr with h1 | h1
      · exact Or.inl h1
      · right; simp at h1; subst h1; simp
  | saveAnalysis env de d =>
    by_cases hf : env.fault
    · exact ⟨fun r hr => Or.inl (by simpa [applyOp, save_analysis_result, hf] using hr),
        fun r hr => Or.inl (by simpa [applyOp, save_analysis_result, hf] using hr),
        fun r hr => Or.inl (by simpa [applyOp, save_analysis_result, hf] using hr)⟩
    · refine ⟨fun r hr =>
        Or.inl (by simpa [applyOp, save_analysis_result, hf, insertAnalysisRow] using hr),
        fun r hr =>
          Or.inl (by simpa [applyOp, save_analysis_result, hf, insertAnalysisRow] using hr),
        fun r hr => ?_⟩
      have e : (applyOp (Op.saveAnalysis env de d) s).analysis_results
          = s.analysis_results ++ [⟨s.analysis_seq + 1, env.now, de, encodeJson d⟩] := by
        simp [applyOp, save_analysis_result, hf, insertAnalysisRow]
      rw [e] at hr
      rcases List.mem_append.mp hr with h1 | h1
      · exact Or.inl h1
      · right; simp at h1; subst h1; simp
  | savePref env k v =>
    by_cases hf : env.fault <;>
      exact ⟨fun r hr => Or.inl (by simpa [applyOp, save_preference, hf] using hr),
        fun r hr => Or.inl (by simpa [applyOp, save_preference, hf] using hr),
        fun r hr => Or.inl (by simpa [applyOp, save_preference, hf] using hr)⟩
  | clearAll env =>
    by_cases hf : env.fault
    · exact ⟨fun r hr => Or.inl (by simpa [applyOp, clear_all_data, hf] using hr),
        fun r hr => Or.inl (by simpa [applyOp, clear_all_data, hf] using hr),
        fun r hr => Or.inl (by simpa [applyOp, clear_all_data, hf] using hr)⟩
    · refine ⟨fun r hr => absurd ?_ (List.not_mem_nil r),
        fun r hr => absurd ?_ (List.not_mem_nil r),
        fun r hr => absurd ?_ (List.not_mem_nil r)⟩ <;>
        (first
          | (simp only [applyOp, clear_all_data, hf, Bool.false_eq_true, if_false] at hr
             exact hr))
  | clearConv env =>
    by_cases hf : env.fault
    · exact ⟨fun r hr => Or.inl (by simpa [applyOp, clear_conversation_data, hf] using hr),
        fun r hr => Or.inl (by simpa [applyOp, clear_conversation_data, hf] using hr),
        fun r hr => Or.inl (by simpa [applyOp, clear_conversation_data, hf] using hr)⟩
    · refine ⟨fun r hr => absurd ?_ (List.not_mem_nil r),
        fun r hr => Or.inl (by simpa [applyOp, clear_conversation_data, hf] using hr),
        fun r hr => Or.inl (by simpa [applyOp, clear_conversation_data, hf] using hr)⟩
      simp only [applyOp, clear_conversation_data, hf, Bool.false_eq_true, if_false] at hr
      exact hr
  | clearScrap env =>
    by_cases hf : env.fault
    · exact ⟨fun r hr => Or.inl (by simpa [applyOp, clear_scraping_data, hf] using hr),
        fun r hr => Or.inl (by simpa [applyOp, clear_scraping_data, hf] using hr),
        fun r hr => Or.inl (by simpa [applyOp, clear_scraping_data, hf] using hr)⟩
    · refine ⟨fun r hr => Or.inl (by simpa [applyOp, clear_scraping_data, hf] using hr),
        fun r hr => absurd ?_ (List.not_mem_nil r),
        fun r hr => Or.inl (by simpa [applyOp, clear_scraping_data, hf] using hr)⟩
      simp only [applyOp, clear_scraping_data, hf, Bool.false_eq_true, if_false] at hr
      exact hr
  | clearAnalysis env =>
    by_cases hf : env.fault
    · exact ⟨fun r hr => Or.inl (by simpa [applyOp, clear_analysis_data, hf] using hr),
        fun r hr => Or.inl (by simpa [applyOp, clear_analysis_data, hf] using hr),
        fun r hr => Or.inl (by simpa [applyOp, clear_analysis_data, hf] using hr)⟩
    · refine ⟨fun r hr => Or.inl (by simpa [applyOp, clear_analysis_data, hf] using hr),
        fun r hr => Or.inl (by simpa [applyOp, clear_analysis_data, hf] using hr),
        fun r hr => absurd ?_ (List.not_mem_nil r)⟩
      simp only [applyOp, clear_analysis_data, hf, Bool.false_eq_true, if_false] at hr
      exact hr
  | doImport env doc rep =>
    by_cases hf : env.fault
    · exact ⟨fun r hr => Or.inl (by simpa [applyOp, import_data, hf] using hr),
        fun r hr => Or.inl (by simpa [applyOp, import_data, hf] using hr),
        fun r hr => Or.inl (by simpa [applyOp, import_data, hf] using hr)⟩
    · obtain ⟨_, i2, _, _, i5, _, i7, _⟩ := import_data_spec env doc rep s (by simp [hf])
      have e : applyOp (Op.doImport env doc rep) s = (import_data env doc rep s).2 := rfl
      refine ⟨fun r hr => ?_, fun r hr => ?_, fun r hr => ?_⟩
      · rw [e, i2] at hr
        rcases List.mem_append.mp hr with h1 | h1
        · cases rep with
          | true => simp at h1
          | false => exact Or.inl (by simpa using h1)
        · exact Or.inr (convRowsFrom_mem_id _ _ r h1).1
      · rw [e, i5] at hr
        rcases List.mem_append.mp hr with h1 | h1
        · cases rep with
          | true => simp at h1
          | false => exact Or.inl (by simpa using h1)
        · exact Or.inr (scrapRowsFrom_mem_id _ _ r h1).1
      · rw [e, i7] at hr
        rcases List.mem_append.mp hr with h1 | h1
        · cases rep with
          | true => simp at h1
          | false => exact Or.inl (by simpa using h1)
        · exact Or.inr (analysisRowsFrom_mem_id _ _ r h1).1

theorem mem_limitClause {α : Type} (limit : Int) (l : List α) (x : α)
    (h : x ∈ limitClause limit l) : x ∈ l := by
  rw [limitClause] at h
  split at h
  · exact h
  · exact List.take_subset _ _ h

theorem load_conversations_eq (env : Env) (limit : Int) (s : Store)
    (hf : env.fault = false)
    (hc : ∀ r ∈ s.conversations, Canon r.conversation_data)
    (hp : List.Pairwise (fun a b : ConvRow => a.id < b.id) s.conversations) :
    load_conversations env limit s
      = (limitClause limit s.conversations.reverse).map decodeConvRowD := by
  simp only [load_conversations, hf, Bool.false_eq_true, if_false]
  rw [sortByKeyDesc_eq_reverse ConvRow.id s.conversations hp]
  rw [mapM_decodeConvRow _
    (fun r hr => hc r (List.mem_reverse.mp (mem_limitClause _ _ _ hr)))]

theorem load_scraping_results_eq (env : Env) (limit : Int) (s : Store)
    (hf : env.fault = false)
    (hc : ∀ r ∈ s.scraping_results, Canon r.data)
    (hp : List.Pairwise (fun a b : ScrapRow => a.id < b.id) s.scraping_results) :
    load_scraping_results env limit s
      = (limitClause limit s.scraping_results.reverse).map decodeScrapRowD := by
  simp only [load_scraping_results, hf, Bool.false_eq_true, if_false]
  rw [sortByKeyDesc_eq_reverse ScrapRow.id s.scraping_results hp]
  rw [mapM_decodeScrapRow _
    (fun r hr => hc r (List.mem_reverse.mp (mem_limitClause _ _ _ hr)))]

theorem load_analysis_results_eq (env : Env) (limit : Int) (s : Store)
    (hf : env.fault = false)
    (hc : ∀ r ∈ s.analysis_results, Canon r.data)
    (hp : List.Pairwise (fun a b : AnalysisRow => a.id < b.id) s.analysis_results) :
    load_analysis_results env limit s
      = (limitClause limit s.analysis_results.reverse).map decodeAnalysisRowD := by
  simp only [load_analysis_results, hf, Bool.false_eq_true, if_false]
  rw [sortByKeyDesc_eq_reverse AnalysisRow.id s.analysis_results hp]
  rw [mapM_decodeAnalysisRow _
    (fun r hr => hc r (List.mem_reverse.mp (mem_limitClause _ _ _ hr)))]

theorem find?_filter_key (k v : String) : ∀ prefs : List (String × String),
    List.find? (fun p => p.1 == k) (prefs.filter (fun p => !(p.1 == k)) ++ [(k, v)])
      = some (k, v) := by
  intro prefs
  induction prefs with
  | nil => simp
  | cons p ps ih =>
    by_cases hpk : (p.1 == k) = true
    · simp only [List.filter_cons, hpk, Bool.not_true, List.cons_append]
      exact ih
    · have hpk' : (p.1 == k) = false := by
        revert hpk; cases (p.1 == k) <;> simp
      simp only [List.filter_cons, hpk', Bool.not_false, List.cons_append, List.find?_cons,
        if_true]
      exact ih

theorem lookupPref_upsert_self (k v : String) (prefs : List (String × String)) :
    lookupPref k (upsertPref k v prefs) = some v := by
  rw [lookupPref, upsertPref, find?_filter_key]
  rfl

theorem upsertPref_not_mem (k v : String) (prefs : List (String × String))
    (h : ∀ p ∈ prefs, (p.1 == k) = false) :
    upsertPref k v prefs = prefs ++ [(k, v)] := by
  rw [upsertPref, List.filter_eq_self.mpr (fun p hp => by simp [h p hp])]

theorem prefsAfter_append (entries : List (String × Json)) : ∀ acc,
    (∀ p ∈ entries, ∀ q ∈ acc, (q.1 == p.1) = false) →
    (entries.map Prod.fst).Nodup →
    prefsAfter entries acc = acc ++ entries.map (fun p => (p.1, encodeJson p.2)) := by
  induction entries with
  | nil => intro acc _ _; simp [prefsAfter]
  | cons e es ih =>
    intro acc hdisj hnodup
    have hknodup : e.1 ∉ es.map Prod.fst ∧ (es.map Prod.fst).Nodup := by
      rw [List.map_cons, List.nodup_cons] at hnodup
      exact hnodup
    have e0 : prefsAfter (e :: es) acc
        = prefsAfter es (upsertPref e.1 (encodeJson e.2) acc) := rfl
    rw [e0, upsertPref_not_mem _ _ _ (fun q hq => by
      have := hdisj e (by simp) q hq
      simpa using this)]
    rw [ih (acc ++ [(e.1, encodeJson e.2)]) ?_ hknodup.2]
    · simp
    · intro p hp q hq
      rcases List.mem_append.mp hq with h1 | h1
      · exact hdisj p (by simp [hp]) q h1
      · simp only [List.mem_singleton] at h1
        subst h1
        have hne : e.1 ≠ p.1 := by
          intro hcontra
          exact hknodup.1 (hcontra ▸ List.mem_map_of_mem Prod.fst hp)
        simpa using hne

/-- Total variant of `decodeConvEntry`, agreeing with it on canonical rows. -/
def decodeConvEntryD (r : ConvRow) : ConvEntry :=
  ⟨r.id, r.timestamp, (decodeJson r.conversation_data).getD Json.null⟩

/-- Total variant of `decodePrefEntry`. -/
def decodePrefEntryD (p : String × String) : String × Json :=
  (p.1, (decodeJson p.2).getD Json.null)

/-- Total variant of `decodeScrapEntry`. -/
def decodeScrapEntryD (r : ScrapRow) : ScrapEntry :=
  ⟨r.id, r.timestamp, r.url, (decodeJson r.data).getD Json.null⟩

/-- Total variant of `decodeAnalysisEntry`. -/
def decodeAnalysisEntryD (r : AnalysisRow) : AnalysisEntry :=
  ⟨r.id, r.timestamp, r.description, (decodeJson r.data).getD Json.null⟩

theorem canon_encode_getD {t : String} (h : Canon t) :
    encodeJson ((decodeJson t).getD Json.null) = t := by
  obtain ⟨v, hv, he⟩ := canon_decode h
  rw [hv]
  exact he

theorem export_all_data_eq (env : Env) (s : Store) (hf : env.fault = false)
    (h1 : ∀ r ∈ s.conversations, Canon r.conversation_data)
    (h2 : ∀ p ∈ s.preferences, Canon p.2)
    (h3 : ∀ r ∈ s.scraping_results, Canon r.data)
    (h4 : ∀ r ∈ s.analysis_results, Canon r.data) :
    export_all_data env s = some ⟨s.conversations.map decodeConvEntryD,
      s.preferences.map decodePrefEntryD, s.scraping_results.map decodeScrapEntryD,
      s.analysis_results.map decodeAnalysisEntryD, env.now⟩ := by
  simp only [export_all_data, hf, Bool.false_eq_true, if_false]
  rw [mapM_eq_some_map decodeConvEntry decodeConvEntryD _ (fun r hr => by
    obtain ⟨v, hv, he⟩ := canon_decode (h1 r hr)
    simp [decodeConvEntry, decodeConvEntryD, hv])]
  rw [mapM_eq_some_map decodePrefEntry decodePrefEntryD _ (fun p hp => by
    obtain ⟨v, hv, he⟩ := canon_decode (h2 p hp)
    simp [decodePrefEntry, decodePrefEntryD, hv])]
  rw [mapM_eq_some_map decodeScrapEntry decodeScrapEntryD _ (fun r hr => by
    obtain ⟨v, hv, he⟩ := canon_decode (h3 r hr)
    simp [decodeScrapEntry, decodeScrapEntryD, hv])]
  rw [mapM_eq_some_map decodeAnalysisEntry decodeAnalysisEntryD _ (fun r hr => by
    obtain ⟨v, hv, he⟩ := canon_decode (h4 r hr)
    simp [decodeAnalysisEntry, decodeAnalysisEntryD, hv])]

/-- Well-formedness of a store state: every blob column holds canonical
JSON text and preference keys are unique (the primary key constraint). -/
structure SWF (s : Store) : Prop where
  convCanon : ∀ r ∈ s.conversations, Canon r.conversation_data
  prefCanon : ∀ p ∈ s.preferences, Canon p.2
  scrapCanon : ∀ r ∈ s.scraping_results, Canon r.data
  analysisCanon : ∀ r ∈ s.analysis_results, Canon r.data
  prefNodup : (s.preferences.map Prod.fst).Nodup

theorem swf_init : SWF initStore := by
  constructor <;> simp [initStore]

/-- The observable content of the store, ignoring ids: per category the
rows' non-id columns in rowid order. -/
def Obs (s : Store) :
    List (String × String) × List (String × String)
      × List (String × String × String) × List (String × String × String) :=
  (s.conversations.map (fun r => (r.timestamp, r.conversation_data)),
   s.preferences,
   s.scraping_results.map (fun r => (r.timestamp, r.url, r.data)),
   s.analysis_results.map (fun r => (r.timestamp, r.description, r.data)))

theorem convRowsFrom_obs (entries : List ConvEntry) : ∀ seq,
    (convRowsFrom seq entries).map (fun r => (r.timestamp, r.conversation_data))
      = entries.map (fun e => (e.timestamp, encodeJson e.data)) := by
  induction entries with
  | nil => intro seq; rfl
  | cons e es ih =>
    intro seq
    simp only [convRowsFrom, List.map_cons, ih (seq + 1)]

theorem scrapRowsFrom_obs (entries : List ScrapEntry) : ∀ seq,
    (scrapRowsFrom seq entries).map (fun r => (r.timestamp, r.url, r.data))
      = entries.map (fun e => (e.timestamp, e.url, encodeJson e.data)) := by
  induction entries with
  | nil => intro seq; rfl
  | cons e es ih =>
    intro seq
    simp only [scrapRowsFrom, List.map_cons, ih (seq + 1)]

theorem analysisRowsFrom_obs (entries : List AnalysisEntry) : ∀ seq,
    (analysisRowsFrom seq entries).map (fun r => (r.timestamp, r.description, r.data))
      = entries.map (fun e => (e.timestamp, e.description, encodeJson e.data)) := by
  induction entries with
  | nil => intro seq; rfl
  | cons e es ih =>
    intro seq
    simp only [analysisRowsFrom, List.map_cons, ih (seq + 1)]

/-- The state after a sequence of `save_conversation` calls. -/
def saveConvsAll (env : Env) (ps : List Json) (s : Store) : Store :=
  ps.foldl (fun st p => (save_conversation env p st).2) s

theorem saveConvsAll_eq (env : Env) (hf : env.fault = false) (ps : List Json) : ∀ s,
    saveConvsAll env ps s
      = importConvs (ps.map fun p => ⟨0, env.now, p⟩) s := by
  induction ps with
  | nil => intro s; rfl
  | cons p ps ih =>
    intro s
    have e1 : saveConvsAll env (p :: ps) s
        = saveConvsAll env ps ((save_conversation env p s).2) := rfl
    have e2 : (save_conversation env p s).2 = insertConvRow env.now (encodeJson p) s := by
      simp [save_conversation, hf]
    rw [e1, e2, ih]
    rfl

/-- C7: `save_preference(k, v1)` followed by `save_preference(k, v2)` makes
`load_preference(k, d)` return `v2` (upsert replaces, it does not append),
and a key that was never set makes `load_preference` return the
caller-supplied default rather than erroring. -/
theorem C7_preference_upsert (env : Env) (k : String) (v1 v2 dflt : Json) (s : Store)
    (hf : env.fault = false) :
    load_preference env k dflt
        ((save_preference env k v2 ((save_preference env k v1 s).2)).2) = v2 ∧
    (lookupPref k s.preferences = none → load_preference env k dflt s = dflt) := by
  constructor
  · have e1 : (save_preference env k v1 s).2
        = { s with preferences := upsertPref k (encodeJson v1) s.preferences } := by
      simp [save_preference, hf]
    have e2 : (save_preference env k v2
          { s with preferences := upsertPref k (encodeJson v1) s.preferences }).2
        = { s with preferences := (upsertPref k (encodeJson v2) (upsertPref k (encodeJson v1) s.preferences)) } := by
      simp [save_preference, hf]
    rw [e1, e2]
    simp only [load_preference, hf, Bool.false_eq_true, if_false]
    rw [lookupPref_upsert_self]
    show (match decodeJson (encodeJson v2) with
      | some v => v
      | none => dflt) = v2
    rw [decodeJson_encodeJson]
  · intro h
    simp [load_preference, hf, h]

/-- C7 witness at concrete inputs. -/
theorem C7_preference_upsert_witness :
    (⟨false, "2025-01-01 00:00:00"⟩ : Env).fault = false ∧
    lookupPref "missing" initStore.preferences = none ∧
    (load_preference ⟨false, "2025-01-01 00:00:00"⟩ "theme" (Json.str "fallback")
        ((save_preference ⟨false, "2025-01-01 00:00:00"⟩ "theme" (Json.str "dark")
          ((save_preference ⟨false, "2025-01-01 00:00:00"⟩ "theme" (Json.str "light")
            initStore).2)).2) = Json.str "dark" ∧
      (lookupPref "missing" initStore.preferences = none →
        load_preference ⟨false, "2025-01-01 00:00:00"⟩ "missing" (Json.str "fallback")
          initStore = Json.str "fallback")) :=
  ⟨rfl, rfl,
    C7_preference_upsert ⟨false, "2025-01-01 00:00:00"⟩ "theme"
      (Json.str "light") (Json.str "dark") (Json.str "fallback") initStore rfl⟩

/-- C5: every store operation converts an underlying I/O fault into its
failure value (boolean `false`, empty list, caller default, or no export
document) with the state unchanged, and a `json.loads` decoding fault inside
`load_conversations` likewise yields `[]`: nothing propagates past the
operation boundary. -/
theorem C5_fault_containment (env : Env) (s : Store) (msgs v dflt : Json)
    (k url descr : String) (limit : Int) (doc : ExportDoc) (rep : Bool)
    (hf : env.fault = true) :
    save_conversation env msgs s = (false, s) ∧
    load_conversations env limit s = [] ∧
    save_preference env k v s = (false, s) ∧
    load_preference env k dflt s = dflt ∧
    save_scraping_result env url v s = (false, s) ∧
    load_scraping_results env limit s = [] ∧
    save_analysis_result env descr v s = (false, s) ∧
    load_analysis_results env limit s = [] ∧
    clear_all_data env s = (false, s) ∧
    clear_conversation_data env s = (false, s) ∧
    clear_scraping_data env s = (false, s) ∧
    clear_analysis_data env s = (false, s) ∧
    export_all_data env s = none ∧
    import_data env doc rep s = (false, s) ∧
    (∀ (env2 : Env) (limit2 : Int) (s2 : Store), env2.fault = false →
      (limitClause limit2 (sortByKeyDesc ConvRow.id s2.conversations)).mapM decodeConvRow
        = none →
      load_conversations env2 limit2 s2 = []) := by
  refine ⟨?_, ?_, ?_, ?_, ?_, ?_, ?_, ?_, ?_, ?_, ?_, ?_, ?_, ?_, ?_⟩
  · simp [save_conversation, hf]
  · simp [load_conversations, hf]
  · simp [save_preference, hf]
  · simp [load_preference, hf]
  · simp [save_scraping_result, hf]
  · simp [load_scraping_results, hf]
  · simp [save_analysis_result, hf]
  · simp [load_analysis_results, hf]
  · simp [clear_all_data, hf]
  · simp [clear_conversation_data, hf]
  · simp [clear_scraping_data, hf]
  · simp [clear_analysis_data, hf]
  · simp [export_all_data, hf]
  · simp [import_data, hf]
  · intro env2 limit2 s2 hf2 hdec
    simp only [load_conversations, hf2, Bool.false_eq_true, if_false]
    rw [hdec]

/-- C5 witness at concrete inputs. -/
theorem C5_fault_containment_witness :
    (⟨true, "2025-01-01 00:00:00"⟩ : Env).fault = true ∧
    save_conversation ⟨true, "2025-01-01 00:00:00"⟩ Json.null initStore
      = (false, initStore) := by
  refine ⟨rfl, ?_⟩
  exact (C5_fault_containment ⟨true, "2025-01-01 00:00:00"⟩ initStore Json.null Json.null
    Json.null "k" "u" "d" 3 ⟨[], [], [], [], "t"⟩ false rfl).1

/-- C4 counterexample: the code offers no preferences-only clear; the
dispatcher returns `False` for the category name `"preferences"` and leaves
the preference record in place, so the claim's clear operation for every
category in `{all, conversations, preferences, scraping, analysis}` does not
exist as stated. -/
theorem C4_counterexample :
    (clear_memory ⟨false, "2025-01-01 00:00:00"⟩ "preferences"
        ((save_preference ⟨false, "2025-01-01 00:00:00"⟩ "theme" (Json.str "dark")
          initStore).2)).1 = false ∧
    (clear_memory ⟨false, "2025-01-01 00:00:00"⟩ "preferences"
        ((save_preference ⟨false, "2025-01-01 00:00:00"⟩ "theme" (Json.str "dark")
          initStore).2)).2.preferences = [("theme", "\"dark\"")] ∧
    [("theme", "\"dark\"")] ≠ ([] : List (String × String)) := by
  refine ⟨rfl, rfl, by decide⟩

/-- C4 amended: category-scoped clears exist for conversations, scraping,
analysis and all (each emptying exactly its category, with `"all"` emptying
all four and the clears reporting success even when already empty), while
`clear_memory "preferences"` reports failure and changes nothing — there is
no preferences-only clear. -/
theorem C4_clear_frame (env : Env) (s : Store) (hf : env.fault = false) :
    clear_conversation_data env s = (true, { s with conversations := [] }) ∧
    clear_scraping_data env s = (true, { s with scraping_results := [] }) ∧
    clear_analysis_data env s = (true, { s with analysis_results := [] }) ∧
    clear_all_data env s = (true, { s with conversations := [], preferences := [], scraping_results := [], analysis_results := [] }) ∧
    clear_memory env "all" s = clear_all_data env s ∧
    clear_memory env "conversations" s = clear_conversation_data env s ∧
    clear_memory env "scraping" s = clear_scraping_data env s ∧
    clear_memory env "analysis" s = clear_analysis_data env s ∧
    clear_memory env "preferences" s = (false, s) := by
  refine ⟨?_, ?_, ?_, ?_, rfl, rfl, rfl, rfl, rfl⟩
  · simp [clear_conversation_data, hf]
  · simp [clear_scraping_data, hf]
  · simp [clear_analysis_data, hf]
  · simp [clear_all_data, hf]

/-- C4 amended witness at concrete inputs. -/
theorem C4_clear_frame_witness :
    (⟨false, "2025-01-01 00:00:00"⟩ : Env).fault = false ∧
    clear_memory ⟨false, "2025-01-01 00:00:00"⟩ "conversations" initStore
      = clear_conversation_data ⟨false, "2025-01-01 00:00:00"⟩ initStore :=
  ⟨rfl, (C4_clear_frame ⟨false, "2025-01-01 00:00:00"⟩ initStore rfl).2.2.2.2.2.1⟩

theorem convRowsFrom_timestamps (entries : List ConvEntry) (seq : Nat) :
    (convRowsFrom seq entries).map ConvRow.timestamp
      = entries.map ConvEntry.timestamp := by
  have h := congrArg (List.map Prod.fst) (convRowsFrom_obs entries seq)
  simpa [List.map_map, Function.comp] using h

theorem scrapRowsFrom_timestamps (entries : List ScrapEntry) (seq : Nat) :
    (scrapRowsFrom seq entries).map ScrapRow.timestamp
      = entries.map ScrapEntry.timestamp := by
  have h := congrArg (List.map Prod.fst) (scrapRowsFrom_obs entries seq)
  simpa [List.map_map, Function.comp] using h

theorem analysisRowsFrom_timestamps (entries : List AnalysisEntry) (seq : Nat) :
    (analysisRowsFrom seq entries).map AnalysisRow.timestamp
      = entries.map AnalysisEntry.timestamp := by
  have h := congrArg (List.map Prod.fst) (analysisRowsFrom_obs entries seq)
  simpa [List.map_map, Function.comp] using h

/-- C2 counterexample: `import_data` inserts a conversation record carrying
the timestamp found in the imported document, not the store-assigned current
time, so an import performed at `2025-01-01 00:00:00` of a document whose
record says `1999-12-31 23:59:59` stores the latter. -/
theorem C2_counterexample :
    ((import_data ⟨false, "2025-01-01 00:00:00"⟩
        ⟨[⟨1, "1999-12-31 23:59:59", Json.null⟩], [], [], [], "1999-12-31 23:59:59"⟩
        false initStore).2.conversations.map ConvRow.timestamp)
      = ["1999-12-31 23:59:59"] ∧
    ("1999-12-31 23:59:59" : String) ≠ "2025-01-01 00:00:00" := by
  refine ⟨rfl, by decide⟩

/-- C2 amended: the three direct append operations stamp each record with
the store-assigned current time `env.now` read inside the call, never a
caller-supplied value, and preferences carry no timestamp column at all;
`import_data` is the exception — it preserves each imported record's own
document timestamp. -/
theorem C2_amended (env : Env) (s : Store) (msgs data : Json) (url descr : String)
    (doc : ExportDoc) (rep : Bool) (hf : env.fault = false) :
    (save_conversation env msgs s).2.conversations
      = s.conversations ++ [⟨s.conv_seq + 1, env.now, encodeJson msgs⟩] ∧
    (save_scraping_result env url data s).2.scraping_results
      = s.scraping_results ++ [⟨s.scraping_seq + 1, env.now, url, encodeJson data⟩] ∧
    (save_analysis_result env descr data s).2.analysis_results
      = s.analysis_results ++ [⟨s.analysis_seq + 1, env.now, descr, encodeJson data⟩] ∧
    ((import_data env doc rep s).2.conversations.map ConvRow.timestamp)
      = (if rep then [] else s.conversations.map ConvRow.timestamp)
          ++ doc.conversations.map ConvEntry.timestamp ∧
    ((import_data env doc rep s).2.scraping_results.map ScrapRow.timestamp)
      = (if rep then [] else s.scraping_results.map ScrapRow.timestamp)
          ++ doc.scraping_results.map ScrapEntry.timestamp ∧
    ((import_data env doc rep s).2.analysis_results.map AnalysisRow.timestamp)
      = (if rep then [] else s.analysis_results.map AnalysisRow.timestamp)
          ++ doc.analysis_results.map AnalysisEntry.timestamp := by
  obtain ⟨_, i2, _, _, i5, _, i7, _⟩ := import_data_spec env doc rep s hf
  refine ⟨?_, ?_, ?_, ?_, ?_, ?_⟩
  · simp [save_conversation, hf, insertConvRow]
  · simp [save_scraping_result, hf, insertScrapRow]
  · simp [save_analysis_result, hf, insertAnalysisRow]
  · rw [i2]
    cases rep <;> simp [convRowsFrom_timestamps]
  · rw [i5]
    cases rep <;> simp [scrapRowsFrom_timestamps]
  · rw [i7]
    cases rep <;> simp [analysisRowsFrom_timestamps]

/-- C2 amended witness at concrete inputs. -/
theorem C2_amended_witness :
    (⟨false, "2025-01-01 00:00:00"⟩ : Env).fault = false ∧
    (save_conversation ⟨false, "2025-01-01 00:00:00"⟩ Json.null initStore).2.conversations
      = initStore.conversations ++ [⟨initStore.conv_seq + 1, "2025-01-01 00:00:00", encodeJson Json.null⟩] :=
  ⟨rfl, (C2_amended ⟨false, "2025-01-01 00:00:00"⟩ initStore Json.null Json.null "u" "d"
    ⟨[], [], [], [], "t"⟩ false rfl).1⟩

/-- C10: a negative limit reaches SQLite's `LIMIT` clause unchanged, where
it means unlimited, so the three load operations return every record of
their category newest-first instead of failing or truncating, while a zero
limit returns the empty sequence. -/
theorem C10_negative_limit (env : Env) (s : Store) (limit : Int) (hf : env.fault = false)
    (hswf : SWF s) (hids : StoreIdsOk s) (hneg : limit < 0) :
    load_conversations env limit s = s.conversations.reverse.map decodeConvRowD ∧
    (load_conversations env limit s).length = s.conversations.length ∧
    load_conversations env 0 s = [] ∧
    load_scraping_results env limit s = s.scraping_results.reverse.map decodeScrapRowD ∧
    (load_scraping_results env limit s).length = s.scraping_results.length ∧
    load_scraping_results env 0 s = [] ∧
    load_analysis_results env limit s = s.analysis_results.reverse.map decodeAnalysisRowD ∧
    (load_analysis_results env limit s).length = s.analysis_results.length ∧
    load_analysis_results env 0 s = [] := by
  have hc := load_conversations_eq env limit s hf hswf.convCanon hids.1.1
  have hs := load_scraping_results_eq env limit s hf hswf.scrapCanon hids.2.1.1
  have ha := load_analysis_results_eq env limit s hf hswf.analysisCanon hids.2.2.1
  have hc0 := load_conversations_eq env 0 s hf hswf.convCanon hids.1.1
  have hs0 := load_scraping_results_eq env 0 s hf hswf.scrapCanon hids.2.1.1
  have ha0 := load_analysis_results_eq env 0 s hf hswf.analysisCanon hids.2.2.1
  rw [limitClause_neg _ _ hneg] at hc hs ha
  rw [limitClause_zero] at hc0 hs0 ha0
  refine ⟨hc, ?_, by simpa using hc0, hs, ?_, by simpa using hs0, ha, ?_, by simpa using ha0⟩
  · rw [hc]; simp
  · rw [hs]; simp
  · rw [ha]; simp

/-- C10 witness at concrete inputs. -/
theorem C10_negative_limit_witness :
    (⟨false, "t"⟩ : Env).fault = false ∧ ((-1 : Int) < 0) ∧
    load_conversations ⟨false, "t"⟩ (-1)
        ((save_conversation ⟨false, "t"⟩ (Json.str "m") initStore).2)
      = ((save_conversation ⟨false, "t"⟩ (Json.str "m") initStore).2).conversations.reverse.map
          decodeConvRowD := by
  refine ⟨rfl, by decide, ?_⟩
  exact (C10_negative_limit ⟨false, "t"⟩
    ((save_conversation ⟨false, "t"⟩ (Json.str "m") initStore).2) (-1) rfl
    (by refine ⟨?_, ?_, ?_, ?_, ?_⟩ <;>
      first
        | (simp [save_conversation, insertConvRow, initStore]
           exact ⟨Json.str "m", rfl⟩)
        | simp [save_conversation, insertConvRow, initStore])
    (storeIdsOk_applyOp (Op.saveConv ⟨false, "t"⟩ (Json.str "m")) initStore storeIdsOk_init)
    (by decide)).1

/-- C6: appending a payload in any of the three record categories and
loading the most recent record returns the payload exactly — the JSON
serialisation round-trip preserves nested structure and object key order
and coerces nothing. -/
theorem C6_payload_roundtrip (env : Env) (s : Store) (v : Json) (url descr : String)
    (hf : env.fault = false) (hswf : SWF s) (hids : StoreIdsOk s) :
    load_conversations env 1 ((save_conversation env v s).2)
      = [⟨s.conv_seq + 1, env.now, v⟩] ∧
    load_scraping_results env 1 ((save_scraping_result env url v s).2)
      = [⟨s.scraping_seq + 1, env.now, url, v⟩] ∧
    load_analysis_results env 1 ((save_analysis_result env descr v s).2)
      = [⟨s.analysis_seq + 1, env.now, descr, v⟩] := by
  refine ⟨?_, ?_, ?_⟩
  · have e : (save_conversation env v s).2 = insertConvRow env.now (encodeJson v) s := by
      simp [save_conversation, hf]
    rw [e]
    rw [load_conversations_eq env 1 _ hf ?canon
      (storeIdsOk_insertConv env.now (encodeJson v) s hids).1.1]
    case canon =>
      intro r hr
      rw [show (insertConvRow env.now (encodeJson v) s).conversations
          = s.conversations ++ [⟨s.conv_seq + 1, env.now, encodeJson v⟩] from rfl] at hr
      rcases List.mem_append.mp hr with h1 | h1
      · exact hswf.convCanon r h1
      · simp only [List.mem_singleton] at h1
        subst h1
        exact ⟨v, rfl⟩
    rw [show (insertConvRow env.now (encodeJson v) s).conversations
        = s.conversations ++ [⟨s.conv_seq + 1, env.now, encodeJson v⟩] from rfl]
    simp only [List.reverse_append, List.reverse_singleton, List.singleton_append]
    rw [show limitClause (1 : Int)
        ((⟨s.conv_seq + 1, env.now, encodeJson v⟩ : ConvRow) :: s.conversations.reverse)
      = [⟨s.conv_seq + 1, env.now, encodeJson v⟩] from by
        rw [limitClause, if_neg (by omega)]
        rfl]
    simp [decodeConvRowD, decodeJson_encodeJson]
  · have e : (save_scraping_result env url v s).2
        = insertScrapRow env.now url (encodeJson v) s := by
      simp [save_scraping_result, hf]
    rw [e]
    rw [load_scraping_results_eq env 1 _ hf ?canon2
      (storeIdsOk_insertScrap env.now url (encodeJson v) s hids).2.1.1]
    case canon2 =>
      intro r hr
      rw [show (insertScrapRow env.now url (encodeJson v) s).scraping_results
          = s.scraping_results ++ [⟨s.scraping_seq + 1, env.now, url, encodeJson v⟩]
        from rfl] at hr
      rcases List.mem_append.mp hr with h1 | h1
      · exact hswf.scrapCanon r h1
      · simp only [List.mem_singleton] at h1
        subst h1
        exact ⟨v, rfl⟩
    rw [show (insertScrapRow env.now url (encodeJson v) s).scraping_results
        = s.scraping_results ++ [⟨s.scraping_seq + 1, env.now, url, encodeJson v⟩] from rfl]
    simp only [List.reverse_append, List.reverse_singleton, List.singleton_append]
    rw [show limitClause (1 : Int)
        ((⟨s.scraping_seq + 1, env.now, url, encodeJson v⟩ : ScrapRow)
          :: s.scraping_results.reverse)
      = [⟨s.scraping_seq + 1, env.now, url, encodeJson v⟩] from by
        rw [limitClause, if_neg (by omega)]
        rfl]
    simp [decodeScrapRowD, decodeJson_encodeJson]
  · have e : (save_analysis_result env descr v s).2
        = insertAnalysisRow env.now descr (encodeJson v) s := by
      simp [save_analysis_result, hf]
    rw [e]
    rw [load_analysis_results_eq env 1 _ hf ?canon3
      (storeIdsOk_insertAnalysis env.now descr (encodeJson v) s hids).2.2.1]
    case canon3 =>
      intro r hr
      rw [show (insertAnalysisRow env.now descr (encodeJson v) s).analysis_results
          = s.analysis_results ++ [⟨s.analysis_seq + 1, env.now, descr, encodeJson v⟩]
        from rfl] at hr
      rcases List.mem_append.mp hr with h1 | h1
      · exact hswf.analysisCanon r h1
      · simp only [List.mem_singleton] at h1
        subst h1
        exact ⟨v, rfl⟩
    rw [show (insertAnalysisRow env.now descr (encodeJson v) s).analysis_results
        = s.analysis_results ++ [⟨s.analysis_seq + 1, env.now, descr, encodeJson v⟩] from rfl]
    simp only [List.reverse_append, List.reverse_singleton, List.singleton_append]
    rw [show limitClause (1 : Int)
        ((⟨s.analysis_seq + 1, env.now, descr, encodeJson v⟩ : AnalysisRow)
          :: s.analysis_results.reverse)
      = [⟨s.analysis_seq + 1, env.now, descr, encodeJson v⟩] from by
        rw [limitClause, if_neg (by omega)]
        rfl]
    simp [decodeAnalysisRowD, decodeJson_encodeJson]

/-- C6 witness: a nested object payload with deliberately non-alphabetical
key order survives the round trip exactly. -/
theorem C6_payload_roundtrip_witness :
    (⟨false, "t"⟩ : Env).fault = false ∧
    load_conversations ⟨false, "t"⟩ 1
        ((save_conversation ⟨false, "t"⟩
          (Json.obj (JsonFields.cons "b" (Json.arr (JsonList.cons (Json.str "x") JsonList.nil))
            (JsonFields.cons "a" Json.null JsonFields.nil))) initStore).2)
      = [⟨1, "t", Json.obj (JsonFields.cons "b"
            (Json.arr (JsonList.cons (Json.str "x") JsonList.nil))
            (JsonFields.cons "a" Json.null JsonFields.nil))⟩] := by
  refine ⟨rfl, ?_⟩
  exact (C6_payload_roundtrip ⟨false, "t"⟩ initStore
    (Json.obj (JsonFields.cons "b" (Json.arr (JsonList.cons (Json.str "x") JsonList.nil))
      (JsonFields.cons "a" Json.null JsonFields.nil))) "u" "d" rfl swf_init storeIdsOk_init).1

theorem convRowsFrom_length (entries : List ConvEntry) : ∀ seq,
    (convRowsFrom seq entries).length = entries.length := by
  induction entries with
  | nil => intro seq; rfl
  | cons e es ih => intro seq; simp [convRowsFrom, ih (seq + 1)]

/-- C8: merge-mode import (`replace_existing=False`) appends the imported
conversation records after the existing ones — one existing record plus a
one-record document leaves exactly two — while imported preferences upsert,
overwriting an existing key of the same name. -/
theorem C8_merge_import (env : Env) (s : Store) (doc : ExportDoc) (k : String) (v : Json)
    (hf : env.fault = false) (hconv : s.conversations.length = 1)
    (hdoc : doc.conversations.length = 1) :
    (import_data env doc false s).1 = true ∧
    (import_data env doc false s).2.conversations.length = 2 ∧
    (doc.preferences = [(k, v)] →
      lookupPref k (import_data env doc false s).2.preferences
        = some (encodeJson v)) := by
  obtain ⟨i1, i2, _, i4, _, _, _, _⟩ := import_data_spec env doc false s hf
  refine ⟨i1, ?_, ?_⟩
  · rw [i2]
    simp [convRowsFrom_length, hconv, hdoc]
  · intro hpk
    rw [i4, hpk]
    rw [show prefsAfter [(k, v)] (if false then [] else s.preferences)
        = upsertPref k (encodeJson v) s.preferences from rfl]
    exact lookupPref_upsert_self k (encodeJson v) s.preferences

/-- C8 witness at concrete inputs. -/
theorem C8_merge_import_witness :
    (⟨false, "t"⟩ : Env).fault = false ∧
    ((save_conversation ⟨false, "t"⟩ Json.null initStore).2).conversations.length = 1 ∧
    (import_data ⟨false, "t"⟩
        ⟨[⟨7, "t0", Json.bool true⟩], [("k", Json.num 1)], [], [], "t0"⟩ false
        ((save_conversation ⟨false, "t"⟩ Json.null initStore).2)).2.conversations.length
      = 2 := by
  refine ⟨rfl, rfl, ?_⟩
  exact (C8_merge_import ⟨false, "t"⟩ ((save_conversation ⟨false, "t"⟩ Json.null initStore).2)
    ⟨[⟨7, "t0", Json.bool true⟩], [("k", Json.num 1)], [], [], "t0"⟩ "k" (Json.num 1)
    rfl rfl rfl).2.1

/-- C1: after a sequence of `save_conversation` calls, loading with limit N
returns exactly the N appended records newest-first (descending id);
loading with `k < N` returns the k most recent, newest-first; and a limit
at least the number of stored records returns every stored record without
error. -/
theorem C1_load_reverse_order (env : Env) (ps : List Json) (s : Store)
    (hf : env.fault = false)
    (hswf : SWF s) (hids : StoreIdsOk s) :
    (load_conversations env (ps.length : Int) (saveConvsAll env ps s)
      = (convRecsFrom s.conv_seq (ps.map fun p => ⟨0, env.now, p⟩)).reverse) ∧
    (∀ k : Nat, k < ps.length →
      load_conversations env (k : Int) (saveConvsAll env ps s)
        = ((convRecsFrom s.conv_seq (ps.map fun p => ⟨0, env.now, p⟩)).reverse).take k) ∧
    (∀ m : Nat, (saveConvsAll env ps s).conversations.length ≤ m →
      load_conversations env (m : Int) (saveConvsAll env ps s)
          = (saveConvsAll env ps s).conversations.reverse.map decodeConvRowD ∧
        (load_conversations env (m : Int) (saveConvsAll env ps s)).length
          = (saveConvsAll env ps s).conversations.length) := by
  have he : saveConvsAll env ps s
      = importConvs (ps.map fun p => ⟨0, env.now, p⟩) s := saveConvsAll_eq env hf ps s
  obtain ⟨c1, c2, _, _, _, _, _⟩ := importConvs_spec (ps.map fun p => ⟨0, env.now, p⟩) s
  have hconvs : (saveConvsAll env ps s).conversations
      = s.conversations ++ convRowsFrom s.conv_seq (ps.map fun p => ⟨0, env.now, p⟩) := by
    rw [he, c1]
  have hcanon : ∀ r ∈ (saveConvsAll env ps s).conversations, Canon r.conversation_data := by
    intro r hr
    rw [hconvs] at hr
    rcases List.mem_append.mp hr with h1 | h1
    · exact hswf.convCanon r h1
    · exact canon_convRowsFrom _ _ r h1
  have htok : TableOk ConvRow.id (saveConvsAll env ps s).conversations
      (s.conv_seq + (ps.map fun p => (⟨0, env.now, p⟩ : ConvEntry)).length) := by
    rw [hconvs]
    exact tableOk_append _ _ _ _ _ hids.1 (convRowsFrom_pairwise _ _)
      (fun r hr => convRowsFrom_mem_id _ _ r hr) (by omega)
  have hload : ∀ limit : Int, load_conversations env limit (saveConvsAll env ps s)
      = (limitClause limit
          ((convRowsFrom s.conv_seq (ps.map fun p => ⟨0, env.now, p⟩)).reverse
            ++ s.conversations.reverse)).map decodeConvRowD := by
    intro limit
    rw [load_conversations_eq env limit _ hf hcanon htok.1, hconvs, List.reverse_append]
  have hlenrev : (convRowsFrom s.conv_seq (ps.map fun p =>
      (⟨0, env.now, p⟩ : ConvEntry))).reverse.length = ps.length := by
    simp [convRowsFrom_length]
  refine ⟨?_, ?_, ?_⟩
  · rw [hload, limitClause_nonneg, List.take_left' hlenrev, List.map_reverse,
      map_decodeConvRowD_rowsFrom]
  · intro k hk
    rw [hload, limitClause_nonneg, List.take_append_of_le_length (by omega),
      List.map_take, List.map_reverse, map_decodeConvRowD_rowsFrom]
  · intro m hm
    have hfull : load_conversations env (m : Int) (saveConvsAll env ps s)
        = (saveConvsAll env ps s).conversations.reverse.map decodeConvRowD := by
      rw [load_conversations_eq env (m : Int) _ hf hcanon htok.1, limitClause_nonneg,
        List.take_of_length_le (by simpa using hm)]
    refine ⟨hfull, ?_⟩
    rw [hfull]
    simp

/-- C1 witness at concrete inputs. -/
theorem C1_load_reverse_order_witness :
    (⟨false, "t"⟩ : Env).fault = false ∧
    load_conversations ⟨false, "t"⟩ (([Json.null, Json.bool true] : List Json).length : Int)
        (saveConvsAll ⟨false, "t"⟩ [Json.null, Json.bool true] initStore)
      = (convRecsFrom initStore.conv_seq
          (([Json.null, Json.bool true] : List Json).map fun p => ⟨0, "t", p⟩)).reverse ∧
    ((1 : Nat) < ([Json.null, Json.bool true] : List Json).length ∧
      load_conversations ⟨false, "t"⟩ ((1 : Nat) : Int)
          (saveConvsAll ⟨false, "t"⟩ [Json.null, Json.bool true] initStore)
        = ((convRecsFrom initStore.conv_seq
            (([Json.null, Json.bool true] : List Json).map fun p => ⟨0, "t", p⟩)).reverse).take 1) :=
  ⟨rfl,
    (C1_load_reverse_order ⟨false, "t"⟩ [Json.null, Json.bool true] initStore rfl
      swf_init storeIdsOk_init).1,
    by decide,
    (C1_load_reverse_order ⟨false, "t"⟩ [Json.null, Json.bool true] initStore rfl
      swf_init storeIdsOk_init).2.1 1 (by decide)⟩

/-- C3: exporting a well-formed store and importing the document with
`replace_existing=True` into any destination store succeeds and reproduces
a store observationally equivalent to the exported one: per category the
same records with the same timestamps, payload texts and url/description
fields, in the same order, with only the ids reassigned. -/
theorem C3_export_import_roundtrip (env1 env2 : Env) (s dest : Store) (doc : ExportDoc)
    (hswf : SWF s) (hexp : export_all_data env1 s = some doc) (hf2 : env2.fault = false) :
    (import_data env2 doc true dest).1 = true ∧
    Obs (import_data env2 doc true dest).2 = Obs s := by
  have hf1 : env1.fault = false := by
    cases h : env1.fault with
    | false => rfl
    | true => rw [export_all_data] at hexp; simp [h] at hexp
  rw [export_all_data_eq env1 s hf1 hswf.convCanon hswf.prefCanon hswf.scrapCanon
    hswf.analysisCanon] at hexp
  have hdoc : doc = ⟨s.conversations.map decodeConvEntryD,
      s.preferences.map decodePrefEntryD, s.scraping_results.map decodeScrapEntryD,
      s.analysis_results.map decodeAnalysisEntryD, env1.now⟩ :=
    (Option.some_inj.mp hexp).symm
  subst hdoc
  obtain ⟨i1, i2, _, i4, i5, _, i7, _⟩ := import_data_spec env2 _ true dest hf2
  refine ⟨i1, ?_⟩
  have hconv : (import_data env2 ⟨s.conversations.map decodeConvEntryD,
        s.preferences.map decodePrefEntryD, s.scraping_results.map decodeScrapEntryD,
        s.analysis_results.map decodeAnalysisEntryD, env1.now⟩ true dest).2.conversations.map
        (fun r => (r.timestamp, r.conversation_data))
      = s.conversations.map (fun r => (r.timestamp, r.conversation_data)) := by
    rw [i2, show (if true then ([] : List ConvRow) else dest.conversations) = [] from rfl,
      List.nil_append, convRowsFrom_obs, List.map_map]
    refine List.map_congr_left ?_
    intro r hr
    have := canon_encode_getD (hswf.convCanon r hr)
    simp [decodeConvEntryD, Function.comp, this]
  have hpref : (import_data env2 ⟨s.conversations.map decodeConvEntryD,
        s.preferences.map decodePrefEntryD, s.scraping_results.map decodeScrapEntryD,
        s.analysis_results.map decodeAnalysisEntryD, env1.now⟩ true dest).2.preferences
      = s.preferences := by
    rw [i4, show (if true then ([] : List (String × String)) else dest.preferences) = []
      from rfl]
    rw [prefsAfter_append _ [] (by simp) ?_]
    · rw [List.nil_append, List.map_map]
      have : ∀ p ∈ s.preferences,
          ((fun q => (q.1, encodeJson q.2)) ∘ decodePrefEntryD) p = p := by
        intro p hp
        have := canon_encode_getD (hswf.prefCanon p hp)
        simp [decodePrefEntryD, Function.comp, this]
      rw [List.map_congr_left this]
      simp
    · have : (s.preferences.map decodePrefEntryD).map Prod.fst
          = s.preferences.map Prod.fst := by
        rw [List.map_map]
        rfl
      rw [this]
      exact hswf.prefNodup
  have hscrap : (import_data env2 ⟨s.conversations.map decodeConvEntryD,
        s.preferences.map decodePrefEntryD, s.scraping_results.map decodeScrapEntryD,
        s.analysis_results.map decodeAnalysisEntryD, env1.now⟩ true dest).2.scraping_results.map
        (fun r => (r.timestamp, r.url, r.data))
      = s.scraping_results.map (fun r => (r.timestamp, r.url, r.data)) := by
    rw [i5, show (if true then ([] : List ScrapRow) else dest.scraping_results) = []
      from rfl, List.nil_append, scrapRowsFrom_obs, List.map_map]
    refine List.map_congr_left ?_
    intro r hr
    have := canon_encode_getD (hswf.scrapCanon r hr)
    simp [decodeScrapEntryD, Function.comp, this]
  have hanal : (import_data env2 ⟨s.conversations.map decodeConvEntryD,
        s.preferences.map decodePrefEntryD, s.scraping_results.map decodeScrapEntryD,
        s.analysis_results.map decodeAnalysisEntryD, env1.now⟩ true dest).2.analysis_results.map
        (fun r => (r.timestamp, r.description, r.data))
      = s.analysis_results.map (fun r => (r.timestamp, r.description, r.data)) := by
    rw [i7, show (if true then ([] : List AnalysisRow) else dest.analysis_results) = []
      from rfl, List.nil_append, analysisRowsFrom_obs, List.map_map]
    refine List.map_congr_left ?_
    intro r hr
    have := canon_encode_getD (hswf.analysisCanon r hr)
    simp [decodeAnalysisEntryD, Function.comp, this]
  simp only [Obs]
  rw [hconv, hpref, hscrap, hanal]

/-- C3 witness at concrete inputs: a store holding one record per category
round-trips into a cleared destination. -/
theorem C3_export_import_roundtrip_witness :
    export_all_data ⟨false, "t1"⟩
        ((save_preference ⟨false, "t0"⟩ "k" (Json.num 2)
          ((save_conversation ⟨false, "t0"⟩ Json.null initStore).2)).2)
      = some ⟨[⟨1, "t0", Json.null⟩], [("k", Json.num 2)], [], [], "t1"⟩ ∧
    (⟨false, "t2"⟩ : Env).fault = false ∧
    Obs (import_data ⟨false, "t2"⟩ ⟨[⟨1, "t0", Json.null⟩], [("k", Json.num 2)], [], [], "t1"⟩
        true initStore).2
      = Obs ((save_preference ⟨false, "t0"⟩ "k" (Json.num 2)
          ((save_conversation ⟨false, "t0"⟩ Json.null initStore).2)).2) := by
  refine ⟨rfl, rfl, ?_⟩
  exact (C3_export_import_roundtrip ⟨false, "t1"⟩ ⟨false, "t2"⟩
    ((save_preference ⟨false, "t0"⟩ "k" (Json.num 2)
      ((save_conversation ⟨false, "t0"⟩ Json.null initStore).2)).2) initStore
    ⟨[⟨1, "t0", Json.null⟩], [("k", Json.num 2)], [], [], "t1"⟩
    (by refine ⟨?_, ?_, ?_, ?_, ?_⟩ <;>
      simp [save_preference, save_conversation, insertConvRow, upsertPref, initStore] <;>
      first
        | exact ⟨Json.null, rfl⟩
        | exact ⟨Json.num 2, rfl⟩)
    rfl rfl).2

/-- C9: in every state reachable from a fresh database by store operations,
each AUTOINCREMENT table holds strictly increasing ids bounded by its
surviving sequence counter; no operation ever decreases a sequence counter;
and any record present after an operation either already existed or carries
an id strictly above the counter, so ids are never reused even after clears
or replace-mode imports. -/
theorem C9_ids_never_reused :
    (∀ ops : List Op, StoreIdsOk (applyOps ops initStore)) ∧
    (∀ (o : Op) (s : Store),
      s.conv_seq ≤ (applyOp o s).conv_seq ∧
      s.scraping_seq ≤ (applyOp o s).scraping_seq ∧
      s.analysis_seq ≤ (applyOp o s).analysis_seq) ∧
    (∀ (o : Op) (s : Store),
      (∀ r ∈ (applyOp o s).conversations, r ∈ s.conversations ∨ s.conv_seq < r.id) ∧
      (∀ r ∈ (applyOp o s).scraping_results,
        r ∈ s.scraping_results ∨ s.scraping_seq < r.id) ∧
      (∀ r ∈ (applyOp o s).analysis_results,
        r ∈ s.analysis_results ∨ s.analysis_seq < r.id)) :=
  ⟨fun ops => storeIdsOk_applyOps ops initStore storeIdsOk_init,
    applyOp_seq_mono, applyOp_fresh⟩

/-- C9 witness: a save, a clear, and a second save on a fresh store; the
second record's id is fresh even though the table was emptied in between. -/
theorem C9_ids_never_reused_witness :
    StoreIdsOk (applyOps [Op.saveConv ⟨false, "t"⟩ Json.null,
      Op.clearConv ⟨false, "t"⟩, Op.saveConv ⟨false, "t"⟩ (Json.bool true)] initStore) ∧
    ((⟨[], 1, [], [], 0, [], 0⟩ : Store).conv_seq
      ≤ (applyOp (Op.saveConv ⟨false, "t"⟩ (Json.bool true)) ⟨[], 1, [], [], 0, [], 0⟩).conv_seq) ∧
    ((⟨2, "t", "true"⟩ : ConvRow)
        ∈ (applyOp (Op.saveConv ⟨false, "t"⟩ (Json.bool true))
            (⟨[], 1, [], [], 0, [], 0⟩ : Store)).conversations ∧
      ((⟨2, "t", "true"⟩ : ConvRow) ∈ ([] : List ConvRow)
        ∨ (⟨[], 1, [], [], 0, [], 0⟩ : Store).conv_seq < 2)) :=
  ⟨C9_ids_never_reused.1 [Op.saveConv ⟨false, "t"⟩ Json.null,
      Op.clearConv ⟨false, "t"⟩, Op.saveConv ⟨false, "t"⟩ (Json.bool true)],
    (C9_ids_never_reused.2.1 (Op.saveConv ⟨false, "t"⟩ (Json.bool true))
      ⟨[], 1, [], [], 0, [], 0⟩).1,
    by decide,
    (C9_ids_never_reused.2.2 (Op.saveConv ⟨false, "t"⟩ (Json.bool true))
      ⟨[], 1, [], [], 0, [], 0⟩).1 ⟨2, "t", "true"⟩ (by decide)⟩
